import Mathlib

/-!
Shallow embedding of the record-reconciliation pipeline of
`strategic-investments-gr` (scripts `collect-data.ts`, `claude-api.ts`,
`diavgeia-api.ts`).  External collaborators (Diavgeia API, ministry
scraper, the LLM classifier/extractor/arbiter, the geocoder and the
revision-version lookup) are modelled as explicit oracle parameters;
everything else is translated directly from the source.  JavaScript
truthiness on optional strings and numbers is made explicit via
`strTruthy` / `numTruthy` (the only falsy string is the empty one and the
only falsy number we model is `0`; `NaN` does not arise in the modelled
paths).
-/

namespace SIGR

/-- JS truthiness of an optional string: `undefined`/`null` and `""` are falsy. -/
def strTruthy : Option String → Bool
  | some s => s ≠ ""
  | none => false

/-- JS truthiness of an optional number: `undefined` and `0` are falsy. -/
def numTruthy : Option ℚ → Bool
  | some q => q ≠ 0
  | none => false

/-- `a.includes(b)` on JS strings: `b` occurs as a contiguous substring of `a`. -/
def strIncludes (s sub : String) : Bool := decide (sub.data <:+: s.data)

/-- `s.substring(0, 10)` on a JS string. -/
def strTake10 (s : String) : String := String.mk (s.data.take 10)

/-- JS `Map.set`: replace the value at an existing key in place, else append. -/
def mapSet (m : List (String × String)) (k v : String) : List (String × String) :=
  if m.any (fun p => p.1 = k) then m.map (fun p => if p.1 = k then (k, v) else p)
  else m ++ [(k, v)]

/-- JS `Map.get`. -/
def mapGet (m : List (String × String)) (k : String) : Option String :=
  (m.find? (fun p => p.1 = k)).map Prod.snd

/-- JS `Map.has`. -/
def mapHas (m : List (String × String)) (k : String) : Bool := (mapGet m k).isSome

/-! ## Data model (src/types/index.ts, as the scripts actually use it).
All fields are `Option`s because the raw values come from `JSON.parse`
casts that perform no validation; the normalisation steps fill defaults. -/

structure Location where
  description : Option String
  textLocation : Option String
  lat : Option ℚ
  lon : Option ℚ
  deriving DecidableEq, Repr

structure AmountBreakdown where
  amount : Option ℚ
  description : Option String
  deriving DecidableEq, Repr

structure FundingSource where
  source : Option String
  perc : Option ℚ
  amount : Option ℚ
  deriving DecidableEq, Repr

structure Incentive where
  name : Option String
  incentiveType : Option String
  deriving DecidableEq, Repr

structure Reference where
  fek : Option String
  diavgeiaADA : Option String
  ministryUrl : Option String
  revisesADA : Option String
  deriving DecidableEq, Repr

structure Investment where
  dateApproved : Option String
  beneficiary : Option String
  name : Option String
  totalAmount : Option ℚ
  reference : Option Reference
  amountBreakdown : Option (List AmountBreakdown)
  locations : Option (List Location)
  fundingSource : Option (List FundingSource)
  incentivesApproved : Option (List Incentive)
  category : Option String
  deriving DecidableEq, Repr

/-- `inv.reference?.diavgeiaADA`. -/
def invADA (i : Investment) : Option String := i.reference.bind Reference.diavgeiaADA

/-- `inv.reference?.ministryUrl`. -/
def invUrl (i : Investment) : Option String := i.reference.bind Reference.ministryUrl

/-- A decision as returned by the Diavgeia search API, restricted to the
fields the scripts read.  `relatedDecisions` stands for
`extraFieldValues.relatedDecisions` (absent list modelled as `[]`, which the
code treats identically).  `revisesADA` is the field `main` writes onto the
decision object after `checkIfRevision`. -/
structure Decision where
  ada : String
  subject : Option String
  correctedVersionId : Option String
  relatedDecisions : List String
  issueDate : Option String
  revisesADA : Option String
  deriving DecidableEq, Repr

structure RevisionInfo where
  isRevision : Bool
  revisesADA : Option String
  deriving DecidableEq, Repr

/-! ## Revision detector (diavgeia-api.ts, `checkIfRevision`). -/

/-- The hardcoded Greek revision keyword list of `checkIfRevision`. -/
def revisionKeywords : List String :=
  ["Τροποποίηση", "τροποποίηση", "Διόρθωση", "διόρθωση",
   "Ανάκληση", "ανάκληση", "Αντικατάσταση", "αντικατάσταση",
   "Ορθή επανάληψη", "ορθή επανάληψη"]

/-- Character class of the ADA regex `[ΑΒΓΔΕΖΗΘΙΚΛΜΝΞΟΠΡΣΤΥΦΧΨΩ0-9]`. -/
def adaChar (c : Char) : Bool := c ∈ "ΑΒΓΔΕΖΗΘΙΚΛΜΝΞΟΠΡΣΤΥΦΧΨΩ0123456789".data

/-- Worker for `scanADAs`; the fuel argument (initialised to the list length,
which bounds the number of recursive calls) only serves structural
termination and never cuts the scan short. -/
def scanADAsAux : Nat → List Char → List String
  | 0, _ => []
  | _, [] => []
  | fuel + 1, c :: rest =>
    if ((c :: rest).take 10).length = 10 && ((c :: rest).take 10).all adaChar then
      String.mk ((c :: rest).take 10) :: scanADAsAux fuel ((c :: rest).drop 10)
    else
      scanADAsAux fuel rest

/-- `subject.match(/[Α-Ω0-9]{10}/g)`: the JS global regex scan returning each
leftmost run of exactly ten class characters and resuming after it. -/
def scanADAs (cs : List Char) : List String := scanADAsAux cs.length cs

/-- The lexical keyword check `decision.subject && revisionKeywords.some(...)`. -/
def isRevisionBySubject (d : Decision) : Bool :=
  strTruthy d.subject &&
    revisionKeywords.any (fun kw => strIncludes (d.subject.getD "") kw)

/-- `!!decision.correctedVersionId`. -/
def hasCorrectingId (d : Decision) : Bool := strTruthy d.correctedVersionId

/-- `extraFieldValues.relatedDecisions` present and non-empty. -/
def isExplicitlyMarkedAsRevision (d : Decision) : Bool :=
  !d.relatedDecisions.isEmpty

/-- The sequential `revisedADA` resolution of `checkIfRevision`: first the
head of `relatedDecisions`, then (while the value is still falsy) an ADA
token scanned from the subject that differs from the decision's own, then
the external version lookup.  The protocol-number branch of the source only
logs and never affects the value. -/
def resolveRevisedADA (lookupVersion : String → Option String) (d : Decision) :
    Option String :=
  let r1 : Option String :=
    if isExplicitlyMarkedAsRevision d then d.relatedDecisions.head? else none
  let r2 : Option String :=
    if !strTruthy r1 && isRevisionBySubject d then
      match ((scanADAs (d.subject.getD "").data).filter
          (fun a => a ≠ d.ada)).head? with
      | some a => some a
      | none => r1
    else r1
  if !strTruthy r2 && hasCorrectingId d then
    match lookupVersion (d.correctedVersionId.getD "") with
    | some a => if a ≠ "" then some a else r2
    | none => r2
  else r2

/-- `checkIfRevision` from diavgeia-api.ts.  `lookupVersion` is the
`GET /decisions/version/:id` collaborator: `some a` when the response
carried an `ada` field `a`, `none` on failure or a missing field (the code
catches the failure and keeps going). -/
def checkIfRevision (lookupVersion : String → Option String) (d : Decision) :
    RevisionInfo :=
  if isRevisionBySubject d || hasCorrectingId d || isExplicitlyMarkedAsRevision d
  then
    let r := resolveRevisedADA lookupVersion d
    if strTruthy r then ⟨true, r⟩ else ⟨true, none⟩
  else
    ⟨false, none⟩

/-! ## Post-extraction normalisation (claude-api.ts). -/

/-- The five values of the `Category` enum (types/constants.ts); this is what
`Object.values(Category)` yields. -/
def categoryValues : List String :=
  ["PRODUCTION_MANUFACTURING", "TECHNOLOGY_INNOVATION", "TOURISM_CULTURE",
   "SERVICES_EDUCATION", "HEALTHCARE_WELFARE"]

/-- Worker for `collapseWs`; fuel bounds the recursion depth and is
initialised to the list length, so it never truncates the result. -/
def collapseWsAux : Nat → List Char → List Char
  | 0, _ => []
  | _, [] => []
  | fuel + 1, c :: rest =>
    if c.isWhitespace then
      ' ' :: collapseWsAux fuel (rest.dropWhile Char.isWhitespace)
    else
      c :: collapseWsAux fuel rest

/-- `s.replace(/\s+/g, ' ')`: collapse every whitespace run to one space. -/
def collapseWs (s : String) : String :=
  String.mk (collapseWsAux s.data.length s.data)

/-- One-or-more characters that are neither `/` nor whitespace (the
`([^\/\s]+)` group of the FEK format regex). -/
def fekSeriesSpan (cs : List Char) : List Char × List Char :=
  (cs.takeWhile (fun c => !(c = '/' || c.isWhitespace)),
   cs.dropWhile (fun c => !(c = '/' || c.isWhitespace)))

/-- Matcher for `/ΦΕΚ\s*([^\/\s]+)\s*\/\s*(\d+)\s*\/\s*(.+)/` applied to a
string that starts with `ΦΕΚ` (guaranteed by the preceding prefix step, so
the leftmost match attempt is at position 0); returns the three capture
groups on success. -/
def fekFormatMatch (s : String) : Option (String × String × String) :=
  match s.data with
  | 'Φ' :: 'Ε' :: 'Κ' :: rest =>
    let r1 := rest.dropWhile Char.isWhitespace
    let (series, r2) := fekSeriesSpan r1
    if series.isEmpty then none
    else
      match r2.dropWhile Char.isWhitespace with
      | '/' :: r3 =>
        let r4 := r3.dropWhile Char.isWhitespace
        let digits := r4.takeWhile Char.isDigit
        if digits.isEmpty then none
        else
          match (r4.dropWhile Char.isDigit).dropWhile Char.isWhitespace with
          | '/' :: r5 =>
            let restGroup := r5.dropWhile Char.isWhitespace
            if restGroup.isEmpty then none
            else some (String.mk series, String.mk digits, String.mk restGroup)
          | _ => none
      | _ => none
  | _ => none

/-- The FEK standardisation block of `extractInvestmentData`: ensure the
`ΦΕΚ` marker, collapse whitespace, rewrite a `ΦΕΚ S/N/D` shape to
`ΦΕΚ S N/D`, and trim. -/
def standardizeFek (fek : String) : String :=
  let withMarker := if fek.startsWith "ΦΕΚ" then fek else "ΦΕΚ " ++ fek
  let collapsed := collapseWs withMarker
  let formatted :=
    match fekFormatMatch collapsed with
    | some (series, num, rest) => "ΦΕΚ " ++ series ++ " " ++ num ++ "/" ++ rest
    | none => collapsed
  formatted.trim

/-- The sum the code computes with
`reduce((sum, item) => sum + (item && typeof item.amount === 'number' ? item.amount : 0), 0)`:
non-numeric amounts count as zero. -/
def sumBreakdown (l : List AmountBreakdown) : ℚ :=
  l.foldl (fun acc it => acc + it.amount.getD 0) 0

/-- The per-entry funding-percentage normalisation of
`extractMinistryInvestmentData`: a defined positive `perc` above 1 is
divided by 100, everything else is untouched. -/
def normalizeFundingPerc (f : FundingSource) : FundingSource :=
  match f.perc with
  | some p => if p > 1 then { f with perc := some (p / 100) } else f
  | none => f

/-- The post-parse normalisation block of `extractInvestmentData`
(claude-api.ts lines 306-394) applied to the raw parsed JSON object.
`dateParse` models `new Date(...).toISOString().split('T')[0]` on the
decision's issue date: `some iso` when the date parses, `none` for an
invalid date.  Note there is no funding-source `perc` normalisation in this
function. -/
def normalizeExtracted (dateParse : String → Option String) (dec : Decision)
    (raw : Investment) : Investment :=
  -- Ensure the reference object and its diavgeiaADA exist.
  let ref0 : Reference :=
    match raw.reference with
    | none => ⟨some "", some dec.ada, none, none⟩
    | some r =>
      if strTruthy r.diavgeiaADA then r else { r with diavgeiaADA := some dec.ada }
  -- Standardize the FEK reference format if it is truthy.
  let ref1 : Reference :=
    if strTruthy ref0.fek then
      { ref0 with fek := some (standardizeFek (ref0.fek.getD "")) }
    else ref0
  -- Infer a falsy total amount from a truthy, non-empty breakdown.
  let total0 : Option ℚ :=
    if !numTruthy raw.totalAmount then
      match raw.amountBreakdown with
      | some l => if l.isEmpty then raw.totalAmount else some (sumBreakdown l)
      | none => raw.totalAmount
    else raw.totalAmount
  let name0 : Option String :=
    if strTruthy raw.name then raw.name
    else if strTruthy dec.subject then dec.subject
    else some "Unknown investment"
  let date0 : Option String :=
    if strTruthy raw.dateApproved then raw.dateApproved
    else
      match dec.issueDate with
      | some s => some ((dateParse s).getD "Unknown")
      | none => some "Unknown"
  let beneficiary0 : Option String :=
    if strTruthy raw.beneficiary then raw.beneficiary else some "Unknown"
  let total1 : Option ℚ := if numTruthy total0 then total0 else some 0
  let category0 : Option String :=
    if strTruthy raw.category && !categoryValues.contains (raw.category.getD "")
    then none else raw.category
  { dateApproved := date0
    beneficiary := beneficiary0
    name := name0
    totalAmount := total1
    reference := some ref1
    amountBreakdown := some (raw.amountBreakdown.getD [])
    locations := some (raw.locations.getD [])
    fundingSource := some (raw.fundingSource.getD [])
    incentivesApproved := some (raw.incentivesApproved.getD [])
    category := category0 }

/-- The post-parse normalisation block of `extractMinistryInvestmentData`
(claude-api.ts lines 588-654): ministry-specific defaults from `basicData`,
plus the funding-source percentage normalisation that the Diavgeia path
lacks. -/
def normalizeMinistry (url : String) (basic : Investment) (raw : Investment) :
    Investment :=
  let ref0 : Reference :=
    match raw.reference with
    | none => ⟨some "", some "", some url, none⟩
    | some r =>
      if strTruthy r.ministryUrl then r else { r with ministryUrl := some url }
  let date0 : Option String :=
    if strTruthy raw.dateApproved then raw.dateApproved else some "Unknown"
  let beneficiary0 : Option String :=
    if strTruthy raw.beneficiary then raw.beneficiary
    else if strTruthy basic.beneficiary then basic.beneficiary
    else some "Unknown"
  let name0 : Option String :=
    if strTruthy raw.name then raw.name
    else if strTruthy basic.name then basic.name
    else some "Unknown investment"
  let total0 : Option ℚ :=
    if !numTruthy raw.totalAmount && numTruthy basic.totalAmount then
      basic.totalAmount
    else if !numTruthy raw.totalAmount then some 0
    else raw.totalAmount
  let category0 : Option String :=
    if strTruthy raw.category && !categoryValues.contains (raw.category.getD "")
    then none else raw.category
  let fs0 : List FundingSource := raw.fundingSource.getD []
  let fs1 : List FundingSource :=
    if fs0.isEmpty then fs0 else fs0.map normalizeFundingPerc
  { dateApproved := date0
    beneficiary := beneficiary0
    name := name0
    totalAmount := total0
    reference := some ref0
    amountBreakdown := some (raw.amountBreakdown.getD [])
    locations := some (raw.locations.getD [])
    fundingSource := some fs1
    incentivesApproved := some (raw.incentivesApproved.getD [])
    category := category0 }

/-! ## Extraction retry loop (claude-api.ts, `extractInvestmentData`). -/

/-- Outcome of one attempt of the `client.messages.create` call followed by
the response parse: a successfully parsed raw object, a parse failure
(caught by the inner `try`, yields `null`), or a thrown API error with its
HTTP status and optional `retry-after` header (in seconds). -/
inductive AttemptOutcome
  | ok (raw : Investment)
  | parseFail
  | apiError (status : Nat) (retryAfterSecs : Option Nat)
  deriving DecidableEq, Repr

/-- `error.status === 429`. -/
def isRateLimit : AttemptOutcome → Bool
  | .apiError status _ => status == 429
  | _ => false

/-- The `while (retryCount <= maxRetries)` loop of `extractInvestmentData`,
with `remaining = maxRetries - retryCount` (so `remaining = 0` is exactly
the state where `retryCount < maxRetries` fails and a rate limit is no
longer retried).  Returns the raw extraction result and the list of sleep
delays (ms) performed before each retry. -/
def extractAttemptsAux (att : Nat → AttemptOutcome) :
    Nat → Nat → Nat → Option Investment × List Nat
  | 0, retryCount, _ =>
    -- retryCount = maxRetries: one more attempt runs, but 429 is not retried.
    match att retryCount with
    | .ok raw => (some raw, [])
    | _ => (none, [])
  | left + 1, retryCount, backoffTime =>
    match att retryCount with
    | .ok raw => (some raw, [])
    | .parseFail => (none, [])
    | .apiError status retryAfterSecs =>
      if status = 429 then
        let retryAfter :=
          match retryAfterSecs with
          | some secs => secs * 1000
          | none => backoffTime
        let out := extractAttemptsAux att left (retryCount + 1) (backoffTime * 2)
        (out.1, retryAfter :: out.2)
      else (none, [])

/-- `extractInvestmentData`: run the attempt loop (maxRetries = 5, initial
backoff 2000 ms, doubling each retry) and normalise a successful parse.
`att k` is the outcome of the attempt made with `retryCount = k`. -/
def extractInvestmentData (dateParse : String → Option String)
    (att : Nat → AttemptOutcome) (dec : Decision) :
    Option Investment × List Nat :=
  let out := extractAttemptsAux att 5 0 2000
  (out.1.map (normalizeExtracted dateParse dec), out.2)

/-- The delay the loop sleeps before the retry following attempt `k`: the
server-provided `retry-after` (converted to ms) when present, else the
computed backoff `2000 * 2^k`. -/
def attemptDelay (a : AttemptOutcome) (k : Nat) : Nat :=
  match a with
  | .apiError _ (some secs) => secs * 1000
  | _ => 2000 * 2 ^ k

/-! ## Cross-source deduplicator (claude-api.ts, `deduplicateInvestments`). -/

/-- The parsed arbitration verdict JSON. -/
structure ArbVerdict where
  isDuplicate : Bool
  matchedADA : String
  confidence : String
  deriving DecidableEq, Repr

/-- Outcome of one arbitration call: an error anywhere in the per-record
`try` block (caught, logged, record kept), or a parsed verdict. -/
inductive ArbOutcome
  | err
  | verdict (v : ArbVerdict)
  deriving DecidableEq, Repr

/-- `result.isDuplicate && result.matchedADA && result.confidence !== 'low'`. -/
def acceptedVerdict (v : ArbVerdict) : Bool :=
  v.isDuplicate && v.matchedADA ≠ "" && v.confidence ≠ "low"

/-- JS `String.prototype.toLowerCase` restricted to the alphabets occurring
in this data set (ASCII plus the Greek capitals, with and without tonos). -/
def jsCharToLower (c : Char) : Char :=
  match c with
  | 'Α' => 'α' | 'Β' => 'β' | 'Γ' => 'γ' | 'Δ' => 'δ' | 'Ε' => 'ε'
  | 'Ζ' => 'ζ' | 'Η' => 'η' | 'Θ' => 'θ' | 'Ι' => 'ι' | 'Κ' => 'κ'
  | 'Λ' => 'λ' | 'Μ' => 'μ' | 'Ν' => 'ν' | 'Ξ' => 'ξ' | 'Ο' => 'ο'
  | 'Π' => 'π' | 'Ρ' => 'ρ' | 'Σ' => 'σ' | 'Τ' => 'τ' | 'Υ' => 'υ'
  | 'Φ' => 'φ' | 'Χ' => 'χ' | 'Ψ' => 'ψ' | 'Ω' => 'ω'
  | 'Ά' => 'ά' | 'Έ' => 'έ' | 'Ή' => 'ή' | 'Ί' => 'ί' | 'Ό' => 'ό'
  | 'Ύ' => 'ύ' | 'Ώ' => 'ώ'
  | _ => c.toLower

def jsToLower (s : String) : String := String.mk (s.data.map jsCharToLower)

/-- The name / beneficiary heuristic of the shortlist filter:
`a.toLowerCase().includes(b.toLowerCase().substring(0,10))` in either
direction, guarded by truthiness of both fields. -/
def nameFieldMatch (a b : Option String) : Bool :=
  strTruthy a && strTruthy b &&
    (strIncludes (jsToLower (a.getD "")) (strTake10 (jsToLower (b.getD ""))) ||
     strIncludes (jsToLower (b.getD "")) (strTake10 (jsToLower (a.getD ""))))

/-- `m.totalAmount > 0 && d.totalAmount > 0 && |d - m| / max d m < 0.2`
(comparisons against `undefined` are false). -/
def amountSimilar (dAmt mAmt : Option ℚ) : Bool :=
  match dAmt, mAmt with
  | some a, some b =>
    decide (b > 0) && decide (a > 0) && decide (|a - b| / max a b < 1 / 5)
  | _, _ => false

/-- The cheap-filter predicate selecting potential Diavgeia matches `d` for
a ministry record `m`. -/
def shortlistPred (m d : Investment) : Bool :=
  nameFieldMatch d.name m.name || nameFieldMatch d.beneficiary m.beneficiary ||
    amountSimilar d.totalAmount m.totalAmount

/-- `diavgeiaInvestments.filter(...).slice(0, 20)`. -/
def shortlistFor (diavgeia : List Investment) (m : Investment) :
    List Investment :=
  (diavgeia.filter (shortlistPred m)).take 20

/-- One iteration of the dedup loop over a ministry record: the accumulator
is the `duplicatesMap` so far together with the audit list of ministry URLs
for which an arbitration call was issued. -/
def dedupStep (arb : Investment → List Investment → ArbOutcome)
    (diavgeia : List Investment)
    (acc : List (String × String) × List String) (m : Investment) :
    List (String × String) × List String :=
  let url := invUrl m
  if !strTruthy url then acc
  else
    let shortlist := shortlistFor diavgeia m
    if shortlist.isEmpty then acc
    else
      let calls := acc.2 ++ [url.getD ""]
      match arb m shortlist with
      | .err => (acc.1, calls)
      | .verdict v =>
        (if acceptedVerdict v then mapSet acc.1 (url.getD "") v.matchedADA
         else acc.1,
         calls)

/-- The whole dedup scan (batching only throttles; results are identical to
the sequential fold). -/
def dedupScan (arb : Investment → List Investment → ArbOutcome)
    (diavgeia : List Investment) (ms : List Investment) :
    List (String × String) × List String :=
  ms.foldl (dedupStep arb diavgeia) ([], [])

/-- `ministryInvestments.filter(inv => !inv.reference?.diavgeiaADA || inv.reference.diavgeiaADA === '')`. -/
def ministryOnlyOf (ministry : List Investment) : List Investment :=
  ministry.filter (fun i => !strTruthy (invADA i))

/-- `deduplicateInvestments` from claude-api.ts, with the arbitration call
as an oracle `arb candidate shortlist`. -/
def deduplicateInvestments (arb : Investment → List Investment → ArbOutcome)
    (diavgeia ministry : List Investment) : List Investment :=
  let ministryOnly := ministryOnlyOf ministry
  let duplicatesMap := (dedupScan arb diavgeia ministryOnly).1
  let uniqueMinistry := ministryOnly.filter (fun i =>
    !strTruthy (invUrl i) || !mapHas duplicatesMap ((invUrl i).getD ""))
  diavgeia ++ uniqueMinistry

/-- The audit trail of ministry URLs for which an arbitration call was made. -/
def dedupCalls (arb : Investment → List Investment → ArbOutcome)
    (diavgeia ministry : List Investment) : List String :=
  (dedupScan arb diavgeia (ministryOnlyOf ministry)).2

/-! ## Reconciliation pipeline (collect-data.ts, `main`). -/

/-- The CLI flags the pipeline consumes. -/
structure Params where
  ignoreExisting : Bool
  skipMinistry : Bool
  skipDiavgeia : Bool
  deriving DecidableEq, Repr

/-- The persisted snapshot document (`data/investments.json`):
`revisionsExcluded` holds the `{original, replacedBy}` pairs as
`(original, replacedBy)`. -/
structure Snapshot where
  generatedAt : String
  totalInvestments : Nat
  revisionsExcluded : List (String × String)
  investments : List Investment
  deriving DecidableEq, Repr

/-- `saveData(data, revisionsMap?)`: build the document that is written;
a missing map yields an empty `revisionsExcluded`. -/
def saveData (now : String) (data : List Investment)
    (revisionsMap : Option (List (String × String))) : Snapshot :=
  { generatedAt := now
    totalInvestments := data.length
    revisionsExcluded := revisionsMap.getD []
    investments := data }

/-- `investments.filter(inv => inv.reference?.diavgeiaADA).map(inv => inv.reference!.diavgeiaADA)`:
the truthy registry codes of a record list (used both for `existingADAs`
and for the `ada:` keys of the merge map). -/
def adaKeysOf (l : List Investment) : List String :=
  (l.filter (fun i => strTruthy (invADA i))).map (fun i => (invADA i).getD "")

/-- The truthy ministry URLs of a record list (the `url:` keys of the merge
map). -/
def urlKeysOf (l : List Investment) : List String :=
  (l.filter (fun i => strTruthy (invUrl i))).map (fun i => (invUrl i).getD "")

/-- One run's external collaborators: the Diavgeia search response, the
version-lookup endpoint, the relevance classifier (returns ADA codes), the
extractor (the composed result of `extractInvestmentData`, `null` on
failure), the ministry collector's records, the dedup arbiter, and the
geocoder (gated on `GOOGLE_API_KEY`). -/
structure RunEnv where
  decisions : List Decision
  lookupVersion : String → Option String
  classify : List Decision → List String
  extract : Decision → Option Investment
  ministry : List Investment
  arb : Investment → List Investment → ArbOutcome
  geocode : String → Option (ℚ × ℚ)
  hasGoogleKey : Bool

/-- One iteration of the revision-detection loop: annotate the decision and
produce the `revisionsMap` entry `revisesADA ↦ decision.ada` when the
detector reports a revision with a truthy target. -/
def enrichDecision (lookup : String → Option String) (d : Decision) :
    Decision × Option (String × String) :=
  let ri := checkIfRevision lookup d
  if ri.isRevision && strTruthy ri.revisesADA then
    ({ d with revisesADA := ri.revisesADA }, some (ri.revisesADA.getD "", d.ada))
  else (d, none)

/-- The `DetectRevisions` loop over `decisionsToProcess`: the annotated
decisions (in order) and the accumulated `revisionsMap`. -/
def detectRevisions (lookup : String → Option String) (ds : List Decision) :
    List Decision × List (String × String) :=
  ds.foldl
    (fun acc d =>
      let pr := enrichDecision lookup d
      (acc.1 ++ [pr.1],
       match pr.2 with
       | some kv => mapSet acc.2 kv.1 kv.2
       | none => acc.2))
    ([], [])

/-- The `FilterSuperseded` step (collect-data.ts lines 256-266): a relevant
decision is removed whenever its ADA is a key of the revision map — the
`replacingDecisionIsRelevant` lookup in the source only feeds the log
message, not the filter verdict. -/
def filterSuperseded (revisionsMap : List (String × String))
    (relevantDecisions : List Decision) : List Decision :=
  relevantDecisions.filter (fun d => !mapHas revisionsMap d.ada)

/-- The post-extraction revision attachment in the `processBatch` callback:
copy a truthy `decision.revisesADA` into the record's reference, creating
the reference (with the decision's ADA) when missing. -/
def attachRevision (d : Decision) (inv : Investment) : Investment :=
  if strTruthy d.revisesADA then
    match inv.reference with
    | none =>
      { inv with reference := some ⟨some "", some d.ada, none, d.revisesADA⟩ }
    | some r => { inv with reference := some { r with revisesADA := d.revisesADA } }
  else inv

/-- Step 1 of `main` (the Diavgeia branch).  `none` models `process.exit(1)`
(no results and the ministry source also skipped).  Returns the extracted
Diavgeia records (batch results are collected in input order) and the
discovered revisions map. -/
def collectDiavgeia (env : RunEnv) (params : Params)
    (existingSet : List String) :
    Option (List Investment × List (String × String)) :=
  if params.skipDiavgeia then some ([], [])
  else if env.decisions.isEmpty then
    (if params.skipMinistry then none else some ([], []))
  else
    let decisionsToProcess :=
      if !params.ignoreExisting && !existingSet.isEmpty then
        env.decisions.filter (fun d => !existingSet.contains d.ada)
      else env.decisions
    if decisionsToProcess.isEmpty then some ([], [])
    else
      let dr := detectRevisions env.lookupVersion decisionsToProcess
      let relevantADAs := env.classify dr.1
      let relevantDecisions := dr.1.filter (fun d => relevantADAs.contains d.ada)
      if relevantDecisions.isEmpty then some ([], dr.2)
      else
        let filteredDecisions := filterSuperseded dr.2 relevantDecisions
        let investments :=
          (filteredDecisions.map
            (fun d => (env.extract d).map (attachRevision d))).filterMap id
        some (investments, dr.2)

/-- The `MergeWithPrior` step (collect-data.ts lines 387-423): keep every
prior record, append the new records whose truthy ADA / ministry URL does
not collide with a prior one. -/
def mergeWithPrior (params : Params) (prior : Option Snapshot)
    (combined : List Investment) : List Investment :=
  match prior with
  | none => combined
  | some p =>
    if params.ignoreExisting then combined
    else if p.investments.isEmpty then combined
    else
      let adaKeys := adaKeysOf p.investments
      let urlKeys := urlKeysOf p.investments
      let newInvestmentsToAdd := combined.filter (fun i =>
        !(strTruthy (invADA i) && adaKeys.contains ((invADA i).getD "")) &&
        !(strTruthy (invUrl i) && urlKeys.contains ((invUrl i).getD "")))
      p.investments ++ newInvestmentsToAdd

/-- Per-location geocoding: skipped when there is no truthy text location or
both coordinates are already truthy; otherwise a successful lookup
overwrites `lat`/`lon` and a failed one leaves the location unchanged. -/
def enrichLocation (geocode : String → Option (ℚ × ℚ)) (loc : Location) :
    Location :=
  if !strTruthy loc.textLocation || (numTruthy loc.lat && numTruthy loc.lon)
  then loc
  else
    match geocode (loc.textLocation.getD "") with
    | some c => { loc with lat := some c.1, lon := some c.2 }
    | none => loc

/-- `enrichLocationsWithCoordinates` on one record (records without a
locations array are skipped). -/
def enrichInvestment (geocode : String → Option (ℚ × ℚ)) (i : Investment) :
    Investment :=
  match i.locations with
  | none => i
  | some ls => { i with locations := some (ls.map (enrichLocation geocode)) }

/-- `enrichLocationsWithCoordinates` over the combined list, gated on the
`GOOGLE_API_KEY` flag. -/
def applyGeocoding (env : RunEnv) (l : List Investment) : List Investment :=
  if env.hasGoogleKey then l.map (enrichInvestment env.geocode) else l

/-- A completed run: the persisted snapshot plus (as audit data for the
statements below) the revisions map the run discovered. -/
structure RunOutcome where
  snapshot : Snapshot
  revisionsMap : List (String × String)
  deriving DecidableEq, Repr

/-- The `existingADAs` set built at `LoadPrior` (empty when
`--ignore-existing` is set or there is no prior snapshot). -/
def existingSetOf (params : Params) (prior : Option Snapshot) : List String :=
  if params.ignoreExisting then []
  else match prior with
    | some p => adaKeysOf p.investments
    | none => []

/-- The ministry collection result (empty when `--skip-ministry` is set). -/
def ministryOf (env : RunEnv) (params : Params) : List Investment :=
  if params.skipMinistry then [] else env.ministry

/-- Step 3 of `main`: combine the two sources, running the cross-source
dedup only when both are non-empty; `none` models the
`process.exit(1)` when no investments were collected from either source. -/
def combineSources (arb : Investment → List Investment → ArbOutcome)
    (dv mn : List Investment) : Option (List Investment) :=
  if !dv.isEmpty && !mn.isEmpty then some (deduplicateInvestments arb dv mn)
  else if !dv.isEmpty then some dv
  else if !mn.isEmpty then some mn
  else none

/-- The prior records the merge step re-includes wholesale: the prior
snapshot's investments, unless there is none, it is ignored, or it is
empty. -/
def priorKept (params : Params) (prior : Option Snapshot) : List Investment :=
  match prior with
  | none => []
  | some p =>
    if params.ignoreExisting then []
    else if p.investments.isEmpty then []
    else p.investments

/-- The merge filter verdict for a new record against the prior records'
identity keys (kept iff neither its truthy ADA nor its truthy URL collides). -/
def mergeKeep (priorInvs : List Investment) (i : Investment) : Bool :=
  !(strTruthy (invADA i) && (adaKeysOf priorInvs).contains ((invADA i).getD ""))
    &&
  !(strTruthy (invUrl i) && (urlKeysOf priorInvs).contains ((invUrl i).getD ""))

/-- `main` from collect-data.ts as a function of the prior snapshot and the
collaborator responses; `none` models `process.exit(1)` (no candidates from
any source).  Note the final `saveData(combinedInvestments)` call passes no
revisions map, so the persisted `revisionsExcluded` is always empty. -/
def runMain (env : RunEnv) (params : Params) (prior : Option Snapshot)
    (now : String) : Option RunOutcome :=
  match collectDiavgeia env params (existingSetOf params prior) with
  | none => none
  | some dr =>
    match combineSources env.arb dr.1 (ministryOf env params) with
    | none => none
    | some combined =>
      some ⟨saveData now
        (applyGeocoding env (mergeWithPrior params prior combined)) none,
        dr.2⟩

/-! ## Concrete instances used to evaluate the statements below. -/

/-- A version lookup that always fails (the code treats this as no ADA). -/
def noLookup : String → Option String := fun _ => none

/-- A geocoder that never resolves. -/
def noGeocode : String → Option (ℚ × ℚ) := fun _ => none

/-- An arbiter whose call always throws (caught by the dedup loop). -/
def arbAlwaysErr : Investment → List Investment → ArbOutcome :=
  fun _ _ => ArbOutcome.err

/-- A date parse that always yields an invalid date. -/
def dateParseNone : String → Option String := fun _ => none

/-- A fully-populated record carrying registry code `a`. -/
def mkInv (a nm : String) : Investment :=
  ⟨some "2024-01-01", some "Ben", some nm, some 1000,
   some ⟨some "", some a, none, none⟩, some [], some [], some [], some [], none⟩

/-- A decision that explicitly lists `X` as a related (revised) decision. -/
def dRelated : Decision := ⟨"Y", none, none, ["X"], none, none⟩

/-- A decision with no revision signal at all. -/
def dPlain : Decision :=
  ⟨"ΛΜΝΞΟΠΡΣΤΥ", some "Έγκριση χορήγησης κινήτρων", none, [], none, none⟩

/-- A relevance-filtered decision whose ADA is superseded by an absent one. -/
def dSup : Decision := ⟨"ADA1", none, none, [], none, none⟩

/-- Scenario S1: prior snapshot holding the record that run S1 discovers to
be superseded. -/
def invX : Investment := mkInv "X" "Project X"

def priorS1 : Snapshot := ⟨"t0", 1, [], [invX]⟩

/-- Scenario S1 environment: one new decision `Y` revising `X`, extraction
always succeeds with the decision's own ADA, ministry source skipped. -/
def envS1 : RunEnv :=
  { decisions := [dRelated]
    lookupVersion := noLookup
    classify := fun _ => ["Y"]
    extract := fun d => some (mkInv d.ada "Extracted")
    ministry := []
    arb := arbAlwaysErr
    geocode := noGeocode
    hasGoogleKey := false }

def paramsS1 : Params := ⟨false, true, false⟩

/-- The record extracted for decision `Y` in scenario S1, with the revision
pointer attached. -/
def invYr : Investment :=
  ⟨some "2024-01-01", some "Ben", some "Extracted", some 1000,
   some ⟨some "", some "Y", none, some "X"⟩, some [], some [], some [], some [],
   none⟩

/-- The outcome of scenario S1. -/
def outS1 : RunOutcome := ⟨⟨"t1", 2, [], [invX, invYr]⟩, [("X", "Y")]⟩

/-- Scenario S2: two decisions whose (misbehaving) extraction reports the
same registry code `Z`. -/
def dZ1 : Decision := ⟨"Z1", none, none, [], none, none⟩

def dZ2 : Decision := ⟨"Z2", none, none, [], none, none⟩

def dupA : Investment := mkInv "Z" "P1"

def dupB : Investment := mkInv "Z" "P2"

def envS2 : RunEnv :=
  { decisions := [dZ1, dZ2]
    lookupVersion := noLookup
    classify := fun _ => ["Z1", "Z2"]
    extract := fun d => if d.ada = "Z1" then some dupA else some dupB
    ministry := []
    arb := arbAlwaysErr
    geocode := noGeocode
    hasGoogleKey := false }

def paramsS2 : Params := ⟨false, true, false⟩

def outS2 : RunOutcome := ⟨⟨"t1", 2, [], [dupA, dupB]⟩, []⟩

/-- Scenario S3: a Diavgeia-only configuration whose single decision is
fully processed by the first run. -/
def dA1 : Decision := ⟨"A1", none, none, [], none, none⟩

def invA : Investment := mkInv "A1" "ExtractedA"

def envS3 : RunEnv :=
  { decisions := [dA1]
    lookupVersion := noLookup
    classify := fun _ => ["A1"]
    extract := fun d => some (mkInv d.ada "ExtractedA")
    ministry := []
    arb := arbAlwaysErr
    geocode := noGeocode
    hasGoogleKey := false }

def paramsS3 : Params := ⟨false, true, false⟩

def outS3 : RunOutcome := ⟨⟨"t1", 1, [], [invA]⟩, []⟩

/-- Scenario S4: a ministry-only record (empty registry code, URL `u0`). -/
def mInv : Investment :=
  ⟨some "2024-01-01", some "Ben", some "M-Project", some 500,
   some ⟨some "", some "", some "u0", none⟩, some [], some [], some [], some [],
   none⟩

def envS4 : RunEnv :=
  { decisions := []
    lookupVersion := noLookup
    classify := fun _ => []
    extract := fun _ => none
    ministry := [mInv]
    arb := arbAlwaysErr
    geocode := noGeocode
    hasGoogleKey := false }

def paramsS4 : Params := ⟨false, false, true⟩

def outS4 : RunOutcome := ⟨⟨"t1", 1, [], [mInv]⟩, []⟩

/-- A ministry record that (unexpectedly) carries a registry code. -/
def mWithAda : Investment :=
  ⟨some "2024-01-01", some "Other Co", some "M-Project", some 500,
   some ⟨some "", some "A1", some "u1", none⟩, some [], some [], some [], some [],
   none⟩

/-- A primary-source record for the dedup scenarios. -/
def recP : Investment := mkInv "A1" "Primary"

/-- A ministry record without registry code matching nothing in the
shortlist heuristics against `recP` (unknown total amount, distinct name
and beneficiary). -/
def mNoMatch : Investment :=
  ⟨some "2024-01-01", some "Other Co", some "M-Project", some 0,
   some ⟨some "", some "", some "u2", none⟩, some [], some [], some [], some [],
   none⟩

/-- An empty raw parse result (every field absent). -/
def emptyRawInv : Investment :=
  ⟨none, none, none, none, none, none, none, none, none, none⟩

def fs70 : FundingSource := ⟨some "Κ1", some 70, none⟩

def fs30 : FundingSource := ⟨some "Κ2", some 30, none⟩

def fs70n : FundingSource := ⟨some "Κ1", some (7 / 10), none⟩

def fs30n : FundingSource := ⟨some "Κ2", some (3 / 10), none⟩

/-- A raw extraction result with whole-number funding percentages. -/
def rawFS : Investment := { emptyRawInv with fundingSource := some [fs70, fs30] }

/-- A raw extraction result with an empty-string category. -/
def rawEmptyCat : Investment := { emptyRawInv with category := some "" }

def dec0 : Decision := ⟨"D1", none, none, [], none, none⟩

/-- An attempt oracle whose every call succeeds with the given raw parse. -/
def attOk (raw : Investment) : Nat → AttemptOutcome := fun _ => .ok raw

/-- A raw extraction result with a breakdown but no total amount. -/
def rawBd : Investment :=
  { emptyRawInv with amountBreakdown := some [⟨some 5, some "x"⟩] }

/-- An attempt oracle that is rate-limited on every call. -/
def attAll429 : Nat → AttemptOutcome := fun _ => .apiError 429 none

/-- An attempt oracle: 429 with a retry-after of 7 s, then 429 with no
header, then success. -/
def att1 : Nat → AttemptOutcome := fun k =>
  if k = 0 then .apiError 429 (some 7)
  else if k = 1 then .apiError 429 none
  else .ok emptyRawInv

/-! ## Theorems. -/

/-! Claim C10. -/

/-- C10: `checkIfRevision` reports a resolved revision target only together
with the revision flag, and a decision with no revision keyword in its
subject, no corrected-version pointer and no related-decision list yields
`{isRevision := false}` with no target. -/
theorem checkIfRevision_flag_sound (lookup : String → Option String)
    (d : Decision) :
    ((checkIfRevision lookup d).revisesADA.isSome →
      (checkIfRevision lookup d).isRevision = true) ∧
    ((∀ kw ∈ revisionKeywords, strIncludes (d.subject.getD "") kw = false) →
      strTruthy d.correctedVersionId = false →
      d.relatedDecisions = [] →
      checkIfRevision lookup d = ⟨false, none⟩) := by
  constructor
  · simp only [checkIfRevision]
    split
    · split <;> intro _ <;> rfl
    · intro h
      simp at h
  · intro hkw hcid hrel
    have hany :
        (revisionKeywords.any fun kw => strIncludes (d.subject.getD "") kw)
          = false := by
      rw [List.any_eq_false]
      intro kw hmem
      simp [hkw kw hmem]
    simp [checkIfRevision, isRevisionBySubject, hasCorrectingId,
      isExplicitlyMarkedAsRevision, hany, hcid, hrel]

/-- C10 witness, at a decision resolved through `relatedDecisions` and at a
decision with no revision signal. -/
theorem checkIfRevision_flag_sound_witness :
    (checkIfRevision noLookup dRelated).isRevision = true ∧
    checkIfRevision noLookup dPlain = ⟨false, none⟩ :=
  ⟨(checkIfRevision_flag_sound noLookup dRelated).1 (by decide),
   (checkIfRevision_flag_sound noLookup dPlain).2 (by decide) (by decide)
     (by decide)⟩

/-! Claim C1. -/

/-- C1 counterexample: the revision map sends `ADA1` to `ADA2`, the
relevance-filtered set contains only the `ADA1` decision (its superseder is
absent), and `FilterSuperseded` drops it anyway — the claim requires it to
be kept. -/
theorem filterSuperseded_drops_despite_absent_superseder :
    mapGet [("ADA1", "ADA2")] "ADA1" = some "ADA2" ∧
    ([dSup].map Decision.ada).contains "ADA2" = false ∧
    filterSuperseded [("ADA1", "ADA2")] [dSup] = [] := by
  refine ⟨rfl, by decide, by decide⟩

/-- C1 amended: `FilterSuperseded` drops a relevance-filtered candidate
exactly when its ADA is a key of the revision map — unconditionally, with
no check that the superseding candidate is present (the
`replacingDecisionIsRelevant` lookup only feeds the log message). -/
theorem filterSuperseded_unconditional (revisionsMap : List (String × String))
    (relevantDecisions : List Decision) :
    (∀ d ∈ relevantDecisions, mapHas revisionsMap d.ada = true →
      d ∉ filterSuperseded revisionsMap relevantDecisions) ∧
    (∀ d : Decision, d ∈ filterSuperseded revisionsMap relevantDecisions ↔
      d ∈ relevantDecisions ∧ mapHas revisionsMap d.ada = false) := by
  constructor
  · intro d _ hmap hmem
    simp [filterSuperseded, List.mem_filter, hmap] at hmem
  · intro d
    simp [filterSuperseded, List.mem_filter]

/-- C1 witness: the superseded decision of the amended statement is indeed
removed at a concrete input. -/
theorem filterSuperseded_unconditional_witness :
    dSup ∉ filterSuperseded [("ADA1", "ADA2")] [dSup] :=
  (filterSuperseded_unconditional [("ADA1", "ADA2")] [dSup]).1 dSup
    (by decide) (by decide)

/-! Claim C3. -/

/-- C3: scenario S1 discovers and applies the revision edge `(X, Y)` (its
revisions map is `[("X","Y")]`), yet the persisted metadata carries an
empty `revisionsExcluded`, because `main` invokes `saveData` without the
revisions-map argument. -/
theorem run_revisionsExcluded_always_empty :
    runMain envS1 paramsS1 (some priorS1) "t1" = some outS1 ∧
    outS1.revisionsMap = [("X", "Y")] ∧
    outS1.snapshot.revisionsExcluded = [] :=
  ⟨by decide, rfl, rfl⟩

/-! Claim C8. -/

/-- C8 counterexample: a Diavgeia extraction whose funding sources carry
whole-number percentages 70 and 30 is normalised with those values left
unchanged, and 70 ≠ 70/100 — the claim requires division by 100 for both
sources. -/
theorem extract_keeps_whole_percentages :
    (normalizeExtracted dateParseNone dec0 rawFS).fundingSource
      = some [fs70, fs30] ∧
    fs70.perc = some 70 ∧ fs30.perc = some 30 ∧
    (70 : ℚ) ≠ 70 / 100 ∧ (30 : ℚ) ≠ 30 / 100 :=
  ⟨by decide, rfl, rfl, by norm_num, by norm_num⟩

/-- C8 amended: the whole-percentage normalisation (`perc > 1` divided by
100, everything else untouched) is applied by the ministry extractor only;
the Diavgeia extractor returns `fundingSource` entries unchanged. -/
theorem fundingPerc_normalization (dp : String → Option String)
    (dec : Decision) (url : String) (basic raw : Investment) :
    (normalizeExtracted dp dec raw).fundingSource
      = some (raw.fundingSource.getD []) ∧
    (normalizeMinistry url basic raw).fundingSource
      = some ((raw.fundingSource.getD []).map normalizeFundingPerc) ∧
    (∀ f : FundingSource, ∀ p : ℚ, f.perc = some p → 1 < p →
      (normalizeFundingPerc f).perc = some (p / 100)) ∧
    (∀ f : FundingSource, ∀ p : ℚ, f.perc = some p → ¬ 1 < p →
      normalizeFundingPerc f = f) := by
  refine ⟨rfl, ?_, ?_, ?_⟩
  · simp only [normalizeMinistry]
    cases raw.fundingSource with
    | none => simp
    | some l => cases l <;> simp
  · intro f p hp hlt
    simp [normalizeFundingPerc, hp, hlt]
  · intro f p hp hlt
    simp [normalizeFundingPerc, hp, hlt]

/-- C8 witness: the spec scenario — ministry funding sources
`[{perc:70},{perc:30}]` are persisted as `[{perc:0.7},{perc:0.3}]`, and the
Diavgeia path leaves the same input unchanged. -/
theorem fundingPerc_normalization_witness :
    (normalizeMinistry "u" emptyRawInv rawFS).fundingSource
      = some ((rawFS.fundingSource.getD []).map normalizeFundingPerc) ∧
    (normalizeFundingPerc fs70).perc = some (70 / 100) ∧
    (normalizeExtracted dateParseNone dec0 rawFS).fundingSource
      = some (rawFS.fundingSource.getD []) :=
  ⟨(fundingPerc_normalization dateParseNone dec0 "u" emptyRawInv rawFS).2.1,
   (fundingPerc_normalization dateParseNone dec0 "u" emptyRawInv rawFS).2.2.1
     fs70 70 rfl (by norm_num),
   (fundingPerc_normalization dateParseNone dec0 "u" emptyRawInv rawFS).1⟩


/-- Helper: the reference code of a normalised Diavgeia extraction is the
raw one when truthy, else the decision's ADA. -/
theorem invADA_normalizeExtracted (dp : String → Option String) (dec : Decision)
    (raw : Investment) :
    invADA (normalizeExtracted dp dec raw) =
      (match raw.reference with
       | none => some dec.ada
       | some r =>
         if strTruthy r.diavgeiaADA then r.diavgeiaADA else some dec.ada) := by
  simp only [normalizeExtracted, invADA]
  cases raw.reference with
  | none => split <;> rfl
  | some r =>
    by_cases hada : strTruthy r.diavgeiaADA = true
    · simp only [hada, if_true]
      split <;> rfl
    · simp only [Bool.not_eq_true] at hada
      simp only [hada]
      split
      · simp_all
      · split <;> rfl

/-- Helper: the normalisation guarantees of `normalizeExtracted`. -/
theorem normalizeExtracted_props (dp : String → Option String) (dec : Decision)
    (raw : Investment) :
    (dec.ada ≠ "" → strTruthy (invADA (normalizeExtracted dp dec raw)) = true) ∧
    (normalizeExtracted dp dec raw).amountBreakdown.isSome = true ∧
    (normalizeExtracted dp dec raw).locations.isSome = true ∧
    (normalizeExtracted dp dec raw).fundingSource.isSome = true ∧
    (normalizeExtracted dp dec raw).incentivesApproved.isSome = true ∧
    (raw.totalAmount = none → ∀ l : List AmountBreakdown,
      raw.amountBreakdown = some l → l ≠ [] →
      (normalizeExtracted dp dec raw).totalAmount = some (sumBreakdown l)) ∧
    ((normalizeExtracted dp dec raw).category = none ∨
     (normalizeExtracted dp dec raw).category = some "" ∨
     ((normalizeExtracted dp dec raw).category.getD "") ∈ categoryValues) := by
  refine ⟨?_, rfl, rfl, rfl, rfl, ?_, ?_⟩
  · intro ha
    rw [invADA_normalizeExtracted]
    cases raw.reference with
    | none => simp [strTruthy, ha]
    | some r =>
      show strTruthy (if strTruthy r.diavgeiaADA then r.diavgeiaADA
        else some dec.ada) = true
      by_cases hada : strTruthy r.diavgeiaADA = true
      · rw [if_pos hada]
        exact hada
      · rw [if_neg hada]
        simp [strTruthy, ha]
  · intro ht l hb hl
    simp only [normalizeExtracted, ht, hb]
    simp [numTruthy, List.isEmpty_iff, hl]
    by_cases hs : sumBreakdown l = 0 <;> simp [hs]
  · simp only [normalizeExtracted]
    cases hc : raw.category with
    | none => simp [strTruthy, hc]
    | some c =>
      by_cases hcc : c = ""
      · simp [strTruthy, hc, hcc]
      · by_cases hmem : c ∈ categoryValues
        · simp [strTruthy, hc, hcc, hmem]
        · simp [strTruthy, hc, hcc, hmem]

/-- C9 amended: every non-null result of `extractInvestmentData` is the
normalisation of some raw parse, and is normalised: truthy registry code
(when the decision's ada is non-empty), array fields always present, a
missing total amount inferred from a non-empty breakdown, and a category
that is a valid enum value, absent, or the (falsy, hence uncleared) empty
string. -/
theorem extraction_normalized (dp : String → Option String)
    (att : Nat → AttemptOutcome) (dec : Decision) (inv : Investment)
    (h : (extractInvestmentData dp att dec).1 = some inv) :
    ∃ raw : Investment, inv = normalizeExtracted dp dec raw ∧
      (dec.ada ≠ "" → strTruthy (invADA inv) = true) ∧
      inv.amountBreakdown.isSome = true ∧
      inv.locations.isSome = true ∧
      inv.fundingSource.isSome = true ∧
      inv.incentivesApproved.isSome = true ∧
      (raw.totalAmount = none → ∀ l : List AmountBreakdown,
        raw.amountBreakdown = some l → l ≠ [] →
        inv.totalAmount = some (sumBreakdown l)) ∧
      (inv.category = none ∨ inv.category = some "" ∨
        (inv.category.getD "") ∈ categoryValues) := by
  simp only [extractInvestmentData, Option.map_eq_some'] at h
  obtain ⟨raw, _, hmap⟩ := h
  subst hmap
  exact ⟨raw, rfl, normalizeExtracted_props dp dec raw⟩

/-- C9 witness: the amended statement evaluated on a raw parse carrying only
a breakdown. -/
theorem extraction_normalized_witness :
    ∃ raw : Investment,
      normalizeExtracted dateParseNone dec0 rawBd
        = normalizeExtracted dateParseNone dec0 raw ∧
      (dec0.ada ≠ "" →
        strTruthy (invADA (normalizeExtracted dateParseNone dec0 rawBd)) = true) ∧
      (normalizeExtracted dateParseNone dec0 rawBd).amountBreakdown.isSome = true ∧
      (normalizeExtracted dateParseNone dec0 rawBd).locations.isSome = true ∧
      (normalizeExtracted dateParseNone dec0 rawBd).fundingSource.isSome = true ∧
      (normalizeExtracted dateParseNone dec0 rawBd).incentivesApproved.isSome
        = true ∧
      (raw.totalAmount = none → ∀ l : List AmountBreakdown,
        raw.amountBreakdown = some l → l ≠ [] →
        (normalizeExtracted dateParseNone dec0 rawBd).totalAmount
          = some (sumBreakdown l)) ∧
      ((normalizeExtracted dateParseNone dec0 rawBd).category = none ∨
       (normalizeExtracted dateParseNone dec0 rawBd).category = some "" ∨
       ((normalizeExtracted dateParseNone dec0 rawBd).category.getD "")
         ∈ categoryValues) :=
  extraction_normalized dateParseNone (attOk rawBd) dec0
    (normalizeExtracted dateParseNone dec0 rawBd) rfl

/-- C9 counterexample: a non-null extraction result whose category is the
empty string — neither one of the five enum values nor `undefined` (the
validity check only clears truthy values). -/
theorem extraction_keeps_empty_category :
    (extractInvestmentData dateParseNone (attOk rawEmptyCat) dec0).1
      = some (normalizeExtracted dateParseNone dec0 rawEmptyCat) ∧
    (normalizeExtracted dateParseNone dec0 rawEmptyCat).category = some "" ∧
    "" ∉ categoryValues :=
  ⟨rfl, by decide, by decide⟩

/-- Helper: full characterisation of the retry loop, by induction on the
remaining retry budget, with the backoff invariant `2000 * 2 ^ k` at retry
count `k`. -/
theorem extractAttemptsAux_spec (att : Nat → AttemptOutcome) :
    ∀ r k : Nat,
      ((extractAttemptsAux att r k (2000 * 2 ^ k)).2.length ≤ r) ∧
      (∀ j : Nat,
        (hj : j < (extractAttemptsAux att r k (2000 * 2 ^ k)).2.length) →
        isRateLimit (att (k + j)) = true ∧
        (extractAttemptsAux att r k (2000 * 2 ^ k)).2.get ⟨j, hj⟩
          = attemptDelay (att (k + j)) (k + j)) ∧
      (∀ raw : Investment,
        (extractAttemptsAux att r k (2000 * 2 ^ k)).1 = some raw →
        att (k + (extractAttemptsAux att r k (2000 * 2 ^ k)).2.length)
          = .ok raw) ∧
      ((extractAttemptsAux att r k (2000 * 2 ^ k)).1 = none →
        ∀ raw : Investment,
        att (k + (extractAttemptsAux att r k (2000 * 2 ^ k)).2.length)
          ≠ .ok raw) ∧
      ((∀ j : Nat, isRateLimit (att (k + j)) = true) →
        (extractAttemptsAux att r k (2000 * 2 ^ k)).2.length = r) := by
  intro r
  induction r with
  | zero =>
    intro k
    cases hatt : att k with
    | ok raw =>
      simp only [extractAttemptsAux, hatt]
      exact ⟨by simp, fun j hj => absurd hj (by simp),
        fun raw2 h => by simp at h; subst h; simpa using hatt,
        by simp, by simp⟩
    | parseFail =>
      simp only [extractAttemptsAux, hatt]
      exact ⟨by simp, fun j hj => absurd hj (by simp), by simp,
        fun _ raw2 => by simp [hatt], by simp⟩
    | apiError s ra =>
      simp only [extractAttemptsAux, hatt]
      exact ⟨by simp, fun j hj => absurd hj (by simp), by simp,
        fun _ raw2 => by simp [hatt], by simp⟩
  | succ n ih =>
    intro k
    cases hatt : att k with
    | ok raw =>
      simp only [extractAttemptsAux, hatt]
      exact ⟨by simp, fun j hj => absurd hj (by simp),
        fun raw2 h => by simp at h; subst h; simpa using hatt,
        by simp,
        fun hall => absurd (hall 0) (by simp [hatt, isRateLimit])⟩
    | parseFail =>
      simp only [extractAttemptsAux, hatt]
      exact ⟨by simp, fun j hj => absurd hj (by simp), by simp,
        fun _ raw2 => by simp [hatt],
        fun hall => absurd (hall 0) (by simp [hatt, isRateLimit])⟩
    | apiError s ra =>
      by_cases hs : s = 429
      · subst hs
        have hpow : 2000 * 2 ^ k * 2 = 2000 * 2 ^ (k + 1) := by ring
        have ihk := ih (k + 1)
        have hstep : extractAttemptsAux att (n + 1) k (2000 * 2 ^ k)
            = ((extractAttemptsAux att n (k + 1) (2000 * 2 ^ (k + 1))).1,
               attemptDelay (att k) k
                 :: (extractAttemptsAux att n (k + 1) (2000 * 2 ^ (k + 1))).2) := by
          cases ra with
          | none => simp [extractAttemptsAux, hatt, attemptDelay, hpow]
          | some secs => simp [extractAttemptsAux, hatt, attemptDelay, hpow]
        rw [hstep]
        refine ⟨?_, ?_, ?_, ?_, ?_⟩
        · simpa using Nat.succ_le_succ ihk.1
        · intro j hj
          cases j with
          | zero => exact ⟨by simp [hatt, isRateLimit], by simp⟩
          | succ j =>
            have hj2 : j < (extractAttemptsAux att n (k + 1)
                (2000 * 2 ^ (k + 1))).2.length := by
              simpa using hj
            have hh := ihk.2.1 j hj2
            have hidx : k + (j + 1) = (k + 1) + j := by omega
            rw [hidx]
            exact ⟨hh.1, by simpa using hh.2⟩
        · intro raw hraw
          have hidx : k + ((extractAttemptsAux att n (k + 1)
              (2000 * 2 ^ (k + 1))).2.length + 1)
              = (k + 1) + (extractAttemptsAux att n (k + 1)
                (2000 * 2 ^ (k + 1))).2.length := by omega
          simp only [List.length_cons, hidx]
          exact ihk.2.2.1 raw (by simpa using hraw)
        · intro hnone raw
          have hidx : k + ((extractAttemptsAux att n (k + 1)
              (2000 * 2 ^ (k + 1))).2.length + 1)
              = (k + 1) + (extractAttemptsAux att n (k + 1)
                (2000 * 2 ^ (k + 1))).2.length := by omega
          simp only [List.length_cons, hidx]
          exact ihk.2.2.2.1 (by simpa using hnone) raw
        · intro hall
          have hn := ihk.2.2.2.2 (fun j => by
            have hx := hall (j + 1)
            rwa [show k + (j + 1) = (k + 1) + j by omega] at hx)
          simp [hn]
      · simp only [extractAttemptsAux, hatt, if_neg hs]
        exact ⟨by simp, fun j hj => absurd hj (by simp), by simp,
          fun _ raw2 => by simp [hatt],
          fun hall => absurd (hall 0) (by simp [hatt, isRateLimit, hs])⟩

/-- C7: `extractInvestmentData` retries only on HTTP 429, at most 5 times;
each retry waits the server-provided retry-after (converted to ms) when
present and otherwise the exponential backoff `2000 * 2 ^ attempt` starting
at 2 s and doubling; a non-null result comes from a successful attempt
preceded only by rate-limited ones; otherwise the result is `null`
(the embedded loop is a total function, so no error escapes), and when
every attempt is rate-limited the loop performs exactly 5 retries and
returns `null`. -/
theorem extract_retry_policy (dp : String → Option String)
    (att : Nat → AttemptOutcome) (dec : Decision) :
    ((extractInvestmentData dp att dec).2.length ≤ 5) ∧
    (∀ j : Nat, (hj : j < (extractInvestmentData dp att dec).2.length) →
      isRateLimit (att j) = true ∧
      (extractInvestmentData dp att dec).2.get ⟨j, hj⟩
        = attemptDelay (att j) j) ∧
    (∀ inv : Investment, (extractInvestmentData dp att dec).1 = some inv →
      ∃ raw : Investment,
        att (extractInvestmentData dp att dec).2.length = .ok raw ∧
        inv = normalizeExtracted dp dec raw) ∧
    ((extractInvestmentData dp att dec).1 = none →
      ∀ raw : Investment,
      att (extractInvestmentData dp att dec).2.length ≠ .ok raw) ∧
    ((∀ j : Nat, isRateLimit (att j) = true) →
      (extractInvestmentData dp att dec).1 = none ∧
      (extractInvestmentData dp att dec).2.length = 5) := by
  have hspec := extractAttemptsAux_spec att 5 0
  have h2000 : 2000 * 2 ^ 0 = 2000 := by norm_num
  rw [h2000] at hspec
  simp only [extractInvestmentData]
  refine ⟨hspec.1, ?_, ?_, ?_, ?_⟩
  · intro j hj
    have hh := hspec.2.1 j (by simpa using hj)
    exact ⟨by simpa using hh.1, by simpa using hh.2⟩
  · intro inv hinv
    rw [Option.map_eq_some'] at hinv
    obtain ⟨raw, hraw, hmap⟩ := hinv
    exact ⟨raw, by simpa using hspec.2.2.1 raw hraw, hmap.symm⟩
  · intro hnone raw
    have hn : (extractAttemptsAux att 5 0 2000).1 = none := by
      cases hcase : (extractAttemptsAux att 5 0 2000).1 with
      | none => rfl
      | some raw2 => rw [hcase] at hnone; simp at hnone
    have hh := hspec.2.2.2.1 hn raw
    simpa using hh
  · intro hall
    have hlen := hspec.2.2.2.2 (fun j => by simpa using hall j)
    have hnone : (extractAttemptsAux att 5 0 2000).1 = none := by
      cases hcase : (extractAttemptsAux att 5 0 2000).1 with
      | none => rfl
      | some raw =>
        have hok := hspec.2.2.1 raw hcase
        have h429 := hall (0 + (extractAttemptsAux att 5 0 2000).2.length)
        rw [hok] at h429
        simp [isRateLimit] at h429
    simp [hnone, hlen]

/-- C7 witness: with every attempt rate-limited the loop returns `null`
after exactly 5 retries; with a first attempt carrying `retry-after: 7` the
first recorded delay is the server-provided 7000 ms. -/
theorem extract_retry_policy_witness :
    ((extractInvestmentData dateParseNone attAll429 dec0).1 = none ∧
     (extractInvestmentData dateParseNone attAll429 dec0).2.length = 5) ∧
    (isRateLimit (att1 0) = true ∧
     (extractInvestmentData dateParseNone att1 dec0).2.get ⟨0, by decide⟩
       = attemptDelay (att1 0) 0) :=
  ⟨(extract_retry_policy dateParseNone attAll429 dec0).2.2.2.2 (fun _ => rfl),
   (extract_retry_policy dateParseNone att1 dec0).2.1 0 (by decide)⟩

/-- Helper: `Map.has` is membership among the stored keys. -/
theorem mapHas_iff (m : List (String × String)) (u : String) :
    mapHas m u = true ↔ u ∈ m.map Prod.fst := by
  constructor
  · intro h
    have h2 : (m.find? (fun p => p.1 = u)).isSome := by
      simpa [mapHas, mapGet, Option.isSome_map] using h
    obtain ⟨x, hx, he⟩ := List.find?_isSome.1 h2
    exact List.mem_map.2 ⟨x, hx, by simpa using he⟩
  · intro h
    obtain ⟨x, hx, he⟩ := List.mem_map.1 h
    have h2 : (m.find? (fun p => p.1 = u)).isSome :=
      List.find?_isSome.2 ⟨x, hx, by simpa using he⟩
    simpa [mapHas, mapGet, Option.isSome_map] using h2

/-- Helper: `Map.set` keeps the key sequence and appends fresh keys. -/
theorem mapSet_keys (m : List (String × String)) (k v : String) :
    (mapSet m k v).map Prod.fst =
      if m.any (fun p => p.1 = k) then m.map Prod.fst
      else m.map Prod.fst ++ [k] := by
  simp only [mapSet]
  split
  · rw [List.map_map]
    refine List.map_congr_left (fun p _ => ?_)
    by_cases hp : p.1 = k
    · simp [hp]
    · simp [hp]
  · simp

/-- Helper: key membership after `Map.set`. -/
theorem mem_keys_mapSet (m : List (String × String)) (k v u : String) :
    u ∈ (mapSet m k v).map Prod.fst ↔ u = k ∨ u ∈ m.map Prod.fst := by
  rw [mapSet_keys]
  split
  case isTrue h =>
    constructor
    · exact Or.inr
    · rintro (rfl | hm)
      · rw [List.any_eq_true] at h
        obtain ⟨p, hp, he⟩ := h
        exact List.mem_map.2 ⟨p, hp, by simpa using he⟩
      · exact hm
  case isFalse h =>
    simp [or_comm]

/-- Helper: every key of the dedup scan map comes from a ministry record
with a truthy URL, a non-empty shortlist and an accepted verdict. -/
theorem dedupScan_map_spec (arb : Investment → List Investment → ArbOutcome)
    (dv : List Investment) :
    ∀ (ms : List Investment) (acc : List (String × String) × List String)
      (u : String),
      u ∈ (ms.foldl (dedupStep arb dv) acc).1.map Prod.fst →
      u ∈ acc.1.map Prod.fst ∨
        ∃ m ∈ ms, strTruthy (invUrl m) = true ∧ (invUrl m).getD "" = u ∧
          shortlistFor dv m ≠ [] ∧
          ∃ v : ArbVerdict, arb m (shortlistFor dv m) = .verdict v ∧
            acceptedVerdict v = true := by
  intro ms
  induction ms with
  | nil => simp
  | cons m rest ih =>
    intro acc u h
    simp only [List.foldl_cons] at h
    rcases ih (dedupStep arb dv acc m) u h with hstep | ⟨m2, hm2, props⟩
    · by_cases hurl : strTruthy (invUrl m) = true
      · by_cases hsl : (shortlistFor dv m).isEmpty = true
        · left
          simpa [dedupStep, hurl, hsl] using hstep
        · cases harb : arb m (shortlistFor dv m) with
          | err =>
            left
            simpa [dedupStep, hurl, hsl, harb] using hstep
          | verdict v =>
            by_cases hacc2 : acceptedVerdict v = true
            · rw [show dedupStep arb dv acc m
                  = (mapSet acc.1 ((invUrl m).getD "") v.matchedADA,
                     acc.2 ++ [(invUrl m).getD ""]) by
                simp [dedupStep, hurl, hsl, harb, hacc2]] at hstep
              rcases (mem_keys_mapSet _ _ _ _).1 hstep with rfl | hin
              · right
                refine ⟨m, List.mem_cons_self m rest, hurl, rfl, ?_, v, harb,
                  hacc2⟩
                simpa [List.isEmpty_iff] using hsl
              · exact Or.inl hin
            · left
              simpa [dedupStep, hurl, hsl, harb, hacc2] using hstep
      · left
        simpa [dedupStep, hurl] using hstep
    · exact Or.inr ⟨m2, List.mem_cons_of_mem m hm2, props⟩

/-- Helper: every URL in the dedup call log comes from a ministry record
with that truthy URL and a non-empty shortlist. -/
theorem dedupScan_calls_spec (arb : Investment → List Investment → ArbOutcome)
    (dv : List Investment) :
    ∀ (ms : List Investment) (acc : List (String × String) × List String)
      (u : String),
      u ∈ (ms.foldl (dedupStep arb dv) acc).2 →
      u ∈ acc.2 ∨
        ∃ m ∈ ms, strTruthy (invUrl m) = true ∧ (invUrl m).getD "" = u ∧
          shortlistFor dv m ≠ [] := by
  intro ms
  induction ms with
  | nil => simp
  | cons m rest ih =>
    intro acc u h
    simp only [List.foldl_cons] at h
    rcases ih (dedupStep arb dv acc m) u h with hstep | ⟨m2, hm2, props⟩
    · by_cases hurl : strTruthy (invUrl m) = true
      · by_cases hsl : (shortlistFor dv m).isEmpty = true
        · left
          simpa [dedupStep, hurl, hsl] using hstep
        · have hne : shortlistFor dv m ≠ [] := by
            simpa [List.isEmpty_iff] using hsl
          cases harb : arb m (shortlistFor dv m) with
          | err =>
            rcases by simpa [dedupStep, hurl, hsl, harb] using hstep with
              hin | rfl
            · exact Or.inl hin
            · exact Or.inr ⟨m, List.mem_cons_self m rest, hurl, rfl, hne⟩
          | verdict v =>
            rcases by
                simpa [dedupStep, hurl, hsl, harb] using hstep with hin | rfl
            · exact Or.inl hin
            · exact Or.inr ⟨m, List.mem_cons_self m rest, hurl, rfl, hne⟩
      · left
        simpa [dedupStep, hurl] using hstep
    · exact Or.inr ⟨m2, List.mem_cons_of_mem m hm2, props⟩

/-- C6 counterexample: a ministry record that carries a (non-empty)
registry code is dropped by `deduplicateInvestments` although the arbiter
never returns a verdict (it always errors): the claim allows a secondary
record to be dropped only on an accepting arbitration verdict. -/
theorem dedup_drops_ada_bearing_secondary :
    deduplicateInvestments arbAlwaysErr [recP] [mWithAda] = [recP] ∧
    mWithAda ≠ recP ∧
    strTruthy (invADA mWithAda) = true :=
  ⟨by decide, by decide, rfl⟩

/-- C6 amended: the output is the unaltered primary set followed by the
surviving secondaries; secondaries carrying a truthy registry code are
excluded before any arbitration; a candidate whose URL only occurs with an
empty shortlist is kept and its URL is never sent to arbitration; and a
candidate is dropped from the surviving set only when some candidate with
the same URL received a verdict with `isDuplicate`, a non-empty
`matchedADA` and confidence other than `low`. -/
theorem dedup_output_characterization
    (arb : Investment → List Investment → ArbOutcome)
    (diavgeia ministry : List Investment) :
    (deduplicateInvestments arb diavgeia ministry
      = diavgeia ++ (ministryOnlyOf ministry).filter (fun i =>
          !strTruthy (invUrl i) ||
          !mapHas (dedupScan arb diavgeia (ministryOnlyOf ministry)).1
            ((invUrl i).getD ""))) ∧
    (∀ m ∈ ministry, strTruthy (invADA m) = true →
      m ∉ ministryOnlyOf ministry) ∧
    (∀ m ∈ ministryOnlyOf ministry,
      (∀ m2 ∈ ministryOnlyOf ministry, invUrl m2 = invUrl m →
        shortlistFor diavgeia m2 = []) →
      m ∈ deduplicateInvestments arb diavgeia ministry ∧
      (strTruthy (invUrl m) = true →
        (invUrl m).getD "" ∉ dedupCalls arb diavgeia ministry)) ∧
    (∀ m ∈ ministryOnlyOf ministry,
      m ∉ (ministryOnlyOf ministry).filter (fun i =>
          !strTruthy (invUrl i) ||
          !mapHas (dedupScan arb diavgeia (ministryOnlyOf ministry)).1
            ((invUrl i).getD "")) →
      ∃ m2 ∈ ministryOnlyOf ministry, invUrl m2 = invUrl m ∧
        shortlistFor diavgeia m2 ≠ [] ∧
        ∃ v : ArbVerdict, arb m2 (shortlistFor diavgeia m2) = .verdict v ∧
          v.isDuplicate = true ∧ v.matchedADA ≠ "" ∧ v.confidence ≠ "low") := by
  refine ⟨rfl, ?_, ?_, ?_⟩
  · intro m _ hada hmem
    rw [ministryOnlyOf, List.mem_filter] at hmem
    simp [hada] at hmem
  · intro m hm hempty
    have hkeep :
        (!strTruthy (invUrl m) ||
          !mapHas (dedupScan arb diavgeia (ministryOnlyOf ministry)).1
            ((invUrl m).getD "")) = true := by
      by_cases hurl : strTruthy (invUrl m) = true
      · have hmapfree :
            mapHas (dedupScan arb diavgeia (ministryOnlyOf ministry)).1
              ((invUrl m).getD "") = false := by
          by_contra hcontra
          have hhas :
              mapHas (dedupScan arb diavgeia (ministryOnlyOf ministry)).1
                ((invUrl m).getD "") = true := by
            cases hx : mapHas (dedupScan arb diavgeia
                (ministryOnlyOf ministry)).1 ((invUrl m).getD "") with
            | true => rfl
            | false => exact absurd hx hcontra
          have hkeys := (mapHas_iff _ _).1 hhas
          rcases dedupScan_map_spec arb diavgeia (ministryOnlyOf ministry)
              ([], []) ((invUrl m).getD "") hkeys with hacc | hfound
          · simp at hacc
          · obtain ⟨m2, hm2, hurl2, hgd, hne, _⟩ := hfound
            have hurl_eq : invUrl m2 = invUrl m := by
              cases hu2 : invUrl m2 with
              | none => rw [hu2] at hurl2; simp [strTruthy] at hurl2
              | some s2 =>
                cases hu : invUrl m with
                | none => rw [hu] at hurl; simp [strTruthy] at hurl
                | some s =>
                  have hs : s2 = s := by rw [hu2, hu] at hgd; simpa using hgd
                  rw [hs]
            exact hne (hempty m2 hm2 hurl_eq)
        simp [hmapfree]
      · simp [Bool.not_eq_true] at hurl
        simp [hurl]
    constructor
    · rw [deduplicateInvestments]
      refine List.mem_append_right _ ?_
      exact List.mem_filter.2 ⟨hm, hkeep⟩
    · intro hurl hcalls
      rcases dedupScan_calls_spec arb diavgeia (ministryOnlyOf ministry)
          ([], []) ((invUrl m).getD "") hcalls with hacc | hfound
      · simp at hacc
      · obtain ⟨m2, hm2, hurl2, hgd, hne⟩ := hfound
        have hurl_eq : invUrl m2 = invUrl m := by
          cases hu2 : invUrl m2 with
          | none => rw [hu2] at hurl2; simp [strTruthy] at hurl2
          | some s2 =>
            cases hu : invUrl m with
            | none => rw [hu] at hurl; simp [strTruthy] at hurl
            | some s =>
              have hs : s2 = s := by rw [hu2, hu] at hgd; simpa using hgd
              rw [hs]
        exact hne (hempty m2 hm2 hurl_eq)
  · intro m hm hdropped
    have hpred :
        (!strTruthy (invUrl m) ||
          !mapHas (dedupScan arb diavgeia (ministryOnlyOf ministry)).1
            ((invUrl m).getD "")) = false := by
      by_contra hcontra
      have : (!strTruthy (invUrl m) ||
          !mapHas (dedupScan arb diavgeia (ministryOnlyOf ministry)).1
            ((invUrl m).getD "")) = true := by
        cases hx : (!strTruthy (invUrl m) ||
            !mapHas (dedupScan arb diavgeia (ministryOnlyOf ministry)).1
              ((invUrl m).getD "")) with
        | true => rfl
        | false => exact absurd hx hcontra
      exact hdropped (List.mem_filter.2 ⟨hm, this⟩)
    rw [Bool.or_eq_false_iff] at hpred
    obtain ⟨hurl_b, hmap_b⟩ := hpred
    have hurl : strTruthy (invUrl m) = true := by
      simpa using hurl_b
    have hhas : mapHas (dedupScan arb diavgeia (ministryOnlyOf ministry)).1
        ((invUrl m).getD "") = true := by
      simpa using hmap_b
    have hkeys := (mapHas_iff _ _).1 hhas
    rcases dedupScan_map_spec arb diavgeia (ministryOnlyOf ministry)
        ([], []) ((invUrl m).getD "") hkeys with hacc | hfound
    · simp at hacc
    · obtain ⟨m2, hm2, hurl2, hgd, hne, v, hv, hacc2⟩ := hfound
      have hurl_eq : invUrl m2 = invUrl m := by
        cases hu2 : invUrl m2 with
        | none => rw [hu2] at hurl2; simp [strTruthy] at hurl2
        | some s2 =>
          cases hu : invUrl m with
          | none => rw [hu] at hurl; simp [strTruthy] at hurl
          | some s =>
            have hs : s2 = s := by rw [hu2, hu] at hgd; simpa using hgd
            rw [hs]
      have hfields := hacc2
      rw [acceptedVerdict] at hfields
      simp only [Bool.and_eq_true, decide_eq_true_eq] at hfields
      exact ⟨m2, hm2, hurl_eq, hne, v, hv, hfields.1.1, hfields.1.2,
        hfields.2⟩

/-- C6 witness: a secondary record with no truthy registry code and an
empty shortlist is kept, and its URL is never arbitrated. -/
theorem dedup_output_characterization_witness :
    mNoMatch ∈ deduplicateInvestments arbAlwaysErr [recP] [mNoMatch] ∧
    (strTruthy (invUrl mNoMatch) = true →
      (invUrl mNoMatch).getD "" ∉ dedupCalls arbAlwaysErr [recP] [mNoMatch]) :=
  (dedup_output_characterization arbAlwaysErr [recP] [mNoMatch]).2.2.1 mNoMatch
    (by decide)
    (fun m2 hm2 _ => by
      have hm2e : m2 = mNoMatch := by
        have := List.mem_filter.1 hm2
        simpa using this.1
      subst hm2e
      decide)

/-- Helper: the only falsy defined string is the empty one. -/
theorem strTruthy_some_false {a : String} (h : strTruthy (some a) = false) :
    a = "" := by
  by_contra hne
  simp [strTruthy, hne] at h

/-- Helper: a truthy optional string has a non-empty payload. -/
theorem strTruthy_getD {o : Option String} (h : strTruthy o = true) :
    o.getD "" ≠ "" := by
  cases o with
  | none => simp [strTruthy] at h
  | some s => simpa [strTruthy] using h

/-- Helper: attaching a revision pointer preserves the registry code. -/
theorem invADA_attachRevision (d : Decision) (i : Investment) (b : String)
    (h : invADA i = some b) : invADA (attachRevision d i) = some b := by
  rw [attachRevision]
  split
  · cases href : i.reference with
    | none => rw [invADA, href] at h; simp at h
    | some r =>
      rw [invADA, href] at h
      simp only [href]
      simpa [invADA] using h
  · exact h

/-- Helper: geocoding enrichment does not touch the reference block. -/
theorem invADA_enrichInvestment (g : String → Option (ℚ × ℚ))
    (i : Investment) : invADA (enrichInvestment g i) = invADA i := by
  rw [enrichInvestment]
  split <;> rfl

theorem invUrl_enrichInvestment (g : String → Option (ℚ × ℚ))
    (i : Investment) : invUrl (enrichInvestment g i) = invUrl i := by
  rw [enrichInvestment]
  split <;> rfl

/-- Helper: geocoding distributes over concatenation. -/
theorem applyGeocoding_append (env : RunEnv) (a b : List Investment) :
    applyGeocoding env (a ++ b)
      = applyGeocoding env a ++ applyGeocoding env b := by
  rw [applyGeocoding, applyGeocoding, applyGeocoding]
  split
  · exact List.map_append _ a b
  · rfl

/-- Helper: membership after geocoding comes from a pre-enrichment record
with the same identity fields. -/
theorem mem_applyGeocoding (env : RunEnv) (l : List Investment)
    (i : Investment) (h : i ∈ applyGeocoding env l) :
    ∃ j ∈ l, invADA i = invADA j ∧ invUrl i = invUrl j := by
  rw [applyGeocoding] at h
  split at h
  · obtain ⟨j, hj, he⟩ := List.mem_map.1 h
    exact ⟨j, hj, by rw [← he, invADA_enrichInvestment],
      by rw [← he, invUrl_enrichInvestment]⟩
  · exact ⟨i, h, rfl, rfl⟩

/-- Helper: geocoding preserves emptiness. -/
theorem applyGeocoding_eq_nil (env : RunEnv) (l : List Investment) :
    applyGeocoding env l = [] ↔ l = [] := by
  rw [applyGeocoding]
  split
  · simp
  · exact Iff.rfl

/-- Helper: re-running the per-location enrichment with the same geocoder
changes nothing. -/
theorem enrichLocation_idem (g : String → Option (ℚ × ℚ)) (loc : Location) :
    enrichLocation g (enrichLocation g loc) = enrichLocation g loc := by
  by_cases hskip :
      (!strTruthy loc.textLocation ||
        (numTruthy loc.lat && numTruthy loc.lon)) = true
  · have he : enrichLocation g loc = loc := by
      rw [enrichLocation, if_pos hskip]
    rw [he]
    exact he
  · have htext : strTruthy loc.textLocation = true := by
      rcases Bool.or_eq_false_iff.1 (Bool.eq_false_iff.2 hskip) with ⟨h1, _⟩
      simpa using h1
    cases hg : g (loc.textLocation.getD "") with
    | none =>
      have he : enrichLocation g loc = loc := by
        rw [enrichLocation, if_neg hskip, hg]
      rw [he]
      exact he
    | some c =>
      have he : enrichLocation g loc
          = ⟨loc.description, loc.textLocation, some c.1, some c.2⟩ := by
        rw [enrichLocation, if_neg hskip, hg]
      rw [he]
      by_cases hc : (numTruthy (some c.1) && numTruthy (some c.2)) = true
      · rw [enrichLocation, if_pos]
        simp [htext, hc]
      · rw [enrichLocation, if_neg]
        · show (match g (loc.textLocation.getD "") with
            | some c2 =>
              ({ description := loc.description,
                 textLocation := loc.textLocation,
                 lat := some c2.1, lon := some c2.2 } : Location)
            | none =>
              (⟨loc.description, loc.textLocation, some c.1, some c.2⟩ :
                Location))
            = ⟨loc.description, loc.textLocation, some c.1, some c.2⟩
          rw [hg]
        · simp [htext, hc]

/-- Helper: re-running record enrichment with the same geocoder changes
nothing. -/
theorem enrichInvestment_idem (g : String → Option (ℚ × ℚ))
    (i : Investment) :
    enrichInvestment g (enrichInvestment g i) = enrichInvestment g i := by
  cases hl : i.locations with
  | none =>
    have he : enrichInvestment g i = i := by
      rw [enrichInvestment, hl]
    rw [he]
    exact he
  | some ls =>
    have he : enrichInvestment g i
        = { i with locations := some (ls.map (enrichLocation g)) } := by
      rw [enrichInvestment, hl]
    have hmap : (ls.map (enrichLocation g)).map (enrichLocation g)
        = ls.map (enrichLocation g) := by
      rw [List.map_map]
      exact List.map_congr_left (fun loc _ => enrichLocation_idem g loc)
    rw [he]
    simp [enrichInvestment, hmap]

/-- Helper: geocoding the whole list twice equals geocoding once. -/
theorem applyGeocoding_idem (env : RunEnv) (l : List Investment) :
    applyGeocoding env (applyGeocoding env l) = applyGeocoding env l := by
  simp only [applyGeocoding]
  split
  · rw [List.map_map]
    exact List.map_congr_left (fun i _ => enrichInvestment_idem env.geocode i)
  · rfl

/-- Helper: against no prior records every new record is kept. -/
theorem mergeKeep_nil (i : Investment) : mergeKeep [] i = true := by
  simp [mergeKeep, adaKeysOf, urlKeysOf]

/-- Helper: the merge step is the kept prior records followed by the
filtered new batch. -/
theorem mergeWithPrior_eq (params : Params) (prior : Option Snapshot)
    (combined : List Investment) :
    mergeWithPrior params prior combined
      = priorKept params prior
        ++ combined.filter (mergeKeep (priorKept params prior)) := by
  cases prior with
  | none =>
    simp only [mergeWithPrior, priorKept, List.nil_append]
    exact (List.filter_eq_self.2 (fun i _ => mergeKeep_nil i)).symm
  | some p =>
    by_cases hig : params.ignoreExisting = true
    · simp only [mergeWithPrior, priorKept, hig, if_true, List.nil_append]
      exact (List.filter_eq_self.2 (fun i _ => mergeKeep_nil i)).symm
    · rw [Bool.not_eq_true] at hig
      by_cases hemp : p.investments.isEmpty = true
      · simp only [mergeWithPrior, priorKept, hig, hemp, Bool.false_eq_true,
          if_false, if_true, List.nil_append]
        exact (List.filter_eq_self.2 (fun i _ => mergeKeep_nil i)).symm
      · simp only [mergeWithPrior, priorKept, hig, hemp, Bool.false_eq_true,
          if_false]
        rfl

/-- Helper: a record kept from the prior side really is a prior record. -/
theorem mem_priorKept (params : Params) (prior : Option Snapshot)
    (i : Investment) (h : i ∈ priorKept params prior) :
    ∃ p : Snapshot, prior = some p ∧ i ∈ p.investments := by
  cases prior with
  | none => simp [priorKept] at h
  | some p =>
    refine ⟨p, rfl, ?_⟩
    rw [priorKept] at h
    split at h
    · simp at h
    · split at h
      · simp at h
      · exact h

/-- Helper: every key of the discovered revisions map is a non-empty
superseded code. -/
theorem detectRevisions_keys (lookup : String → Option String) :
    ∀ (ds : List Decision) (acc : List Decision × List (String × String)),
      (∀ k ∈ acc.2.map Prod.fst, k ≠ "") →
      ∀ k ∈ (ds.foldl
          (fun acc d =>
            let pr := enrichDecision lookup d
            (acc.1 ++ [pr.1],
             match pr.2 with
             | some kv => mapSet acc.2 kv.1 kv.2
             | none => acc.2))
          acc).2.map Prod.fst, k ≠ "" := by
  intro ds
  induction ds with
  | nil => intro acc hacc k hk; exact hacc k hk
  | cons d rest ih =>
    intro acc hacc k hk
    refine ih _ ?_ k hk
    rcases hpr : (enrichDecision lookup d).2 with _ | ⟨k2, v2⟩
    · simpa [hpr] using hacc
    · intro k3 hk3
      simp only [hpr] at hk3
      rcases (mem_keys_mapSet _ _ _ _).1 hk3 with rfl | hin
      · rw [enrichDecision] at hpr
        split at hpr
        · rename_i hcond
          simp only [Option.some.injEq, Prod.mk.injEq] at hpr
          rw [← hpr.1]
          refine strTruthy_getD ?_
          simp only [Bool.and_eq_true] at hcond
          exact hcond.2
        · simp at hpr
      · exact hacc k3 hin

/-- Helper: `detectRevisions` is the fold in the statement above. -/
theorem detectRevisions_def (lookup : String → Option String)
    (ds : List Decision) :
    detectRevisions lookup ds
      = ds.foldl
          (fun acc d =>
            let pr := enrichDecision lookup d
            (acc.1 ++ [pr.1],
             match pr.2 with
             | some kv => mapSet acc.2 kv.1 kv.2
             | none => acc.2))
          ([], []) := rfl

/-- Helper: the Diavgeia stage never returns records whose code the run's
revisions map lists as superseded (assuming extraction reports the
decision's own code), and never uses the empty string as a superseded
code. -/
theorem collectDiavgeia_no_superseded (env : RunEnv) (params : Params)
    (s : List String) (dv : List Investment)
    (revMap : List (String × String))
    (hx : ∀ (d : Decision) (i : Investment),
      env.extract d = some i → invADA i = some d.ada)
    (h : collectDiavgeia env params s = some (dv, revMap)) :
    (∀ i ∈ dv, ∀ a : String, invADA i = some a → mapHas revMap a = false) ∧
    mapHas revMap "" = false := by
  have hkeys : ∀ ds : List Decision,
      mapHas (detectRevisions env.lookupVersion ds).2 "" = false := by
    intro ds
    by_contra hcon
    have htrue : mapHas (detectRevisions env.lookupVersion ds).2 "" = true := by
      cases hx2 : mapHas (detectRevisions env.lookupVersion ds).2 "" with
      | true => rfl
      | false => exact absurd hx2 hcon
    have hmem := (mapHas_iff _ _).1 htrue
    rw [detectRevisions_def] at hmem
    exact detectRevisions_keys env.lookupVersion ds ([], []) (by simp) "" hmem
      rfl
  simp only [collectDiavgeia] at h
  repeat' split at h
  all_goals
    first
      | (simp at h
         done)
      | (rw [Option.some.injEq, Prod.mk.injEq] at h
         obtain ⟨h1, h2⟩ := h
         subst h1
         subst h2
         refine ⟨?_, by first | rfl | exact hkeys _⟩
         first
           | (simp
              done)
           | (intro i hi a ha
              rw [List.mem_filterMap] at hi
              obtain ⟨o, ho, hoi⟩ := hi
              rw [List.mem_map] at ho
              obtain ⟨d, hd, hdo⟩ := ho
              rw [← hdo] at hoi
              simp only [id] at hoi
              rw [Option.map_eq_some'] at hoi
              obtain ⟨i0, hi0, hatt⟩ := hoi
              have hada0 : invADA i0 = some d.ada := hx d i0 hi0
              have hada : invADA i = some d.ada := by
                rw [← hatt]
                exact invADA_attachRevision d i0 d.ada hada0
              have haa : a = d.ada := by
                rw [hada] at ha
                simpa using ha.symm
              subst haa
              rw [filterSuperseded] at hd
              have hdmem := List.mem_filter.1 hd
              simpa using hdmem.2))

/-- Helper: membership in the combined batch before the merge: a record is
a Diavgeia extraction, a code-less ministry survivor, or a raw ministry
record. -/
theorem combineSources_mem (arb : Investment → List Investment → ArbOutcome)
    (dv mn combined : List Investment)
    (h : combineSources arb dv mn = some combined) (i : Investment)
    (hi : i ∈ combined) :
    i ∈ dv ∨ strTruthy (invADA i) = false ∨ i ∈ mn := by
  rw [combineSources] at h
  split at h
  · rw [Option.some.injEq] at h
    subst h
    rw [deduplicateInvestments] at hi
    rcases List.mem_append.1 hi with hl | hr
    · exact Or.inl hl
    · have hmo := (List.mem_filter.1 hr).1
      have := (List.mem_filter.1 hmo).2
      exact Or.inr (Or.inl (by simpa using this))
  · split at h
    · rw [Option.some.injEq] at h
      subst h
      exact Or.inl hi
    · split at h
      · rw [Option.some.injEq] at h
        subst h
        exact Or.inr (Or.inr hi)
      · simp at h

/-- Helper: a successfully combined batch is non-empty. -/
theorem combineSources_ne_nil (arb : Investment → List Investment → ArbOutcome)
    (dv mn combined : List Investment)
    (h : combineSources arb dv mn = some combined) : combined ≠ [] := by
  rw [combineSources] at h
  split at h
  · rename_i hcond
    rw [Option.some.injEq] at h
    subst h
    rw [Bool.and_eq_true] at hcond
    have hdv : dv ≠ [] := by
      intro hnil
      rw [hnil] at hcond
      simp at hcond
    rw [deduplicateInvestments]
    intro hnil
    rcases List.append_eq_nil.1 hnil with ⟨h1, _⟩
    exact hdv h1
  · split at h
    · rename_i hcond
      rw [Option.some.injEq] at h
      subst h
      intro hnil
      rw [hnil] at hcond
      simp at hcond
    · split at h
      · rename_i hcond
        rw [Option.some.injEq] at h
        subst h
        intro hnil
        rw [hnil] at hcond
        simp at hcond
      · simp at h

/-- Helper: the merged list is non-empty when the combined batch is. -/
theorem mergeWithPrior_ne_nil (params : Params) (prior : Option Snapshot)
    (combined : List Investment) (h : combined ≠ []) :
    mergeWithPrior params prior combined ≠ [] := by
  rw [mergeWithPrior_eq]
  cases hp : priorKept params prior with
  | nil =>
    rw [List.nil_append, List.filter_eq_self.2 (fun i _ => mergeKeep_nil i)]
    exact h
  | cons a l => simp

/-- Helper: the shape of every successful run. -/
theorem runMain_some_elim (env : RunEnv) (params : Params)
    (prior : Option Snapshot) (now : String) (out : RunOutcome)
    (h : runMain env params prior now = some out) :
    ∃ dv combined : List Investment,
      collectDiavgeia env params (existingSetOf params prior)
        = some (dv, out.revisionsMap) ∧
      combineSources env.arb dv (ministryOf env params) = some combined ∧
      out.snapshot.investments
        = applyGeocoding env (mergeWithPrior params prior combined) ∧
      out.snapshot.revisionsExcluded = [] := by
  simp only [runMain] at h
  split at h
  · exact absurd h (by simp)
  · rename_i dr heq
    split at h
    · exact absurd h (by simp)
    · rename_i combined heq2
      rw [Option.some.injEq] at h
      subst h
      exact ⟨dr.1, combined, by rw [heq], heq2, rfl, rfl⟩

/-- Helper: a successful run persists a non-empty record set. -/
theorem runMain_investments_ne_nil (env : RunEnv) (params : Params)
    (prior : Option Snapshot) (now : String) (out : RunOutcome)
    (h : runMain env params prior now = some out) :
    out.snapshot.investments ≠ [] := by
  obtain ⟨dv, combined, _, hcc, hinv, _⟩ := runMain_some_elim env params prior
    now out h
  rw [hinv]
  intro hnil
  rw [applyGeocoding_eq_nil] at hnil
  exact mergeWithPrior_ne_nil params prior combined
    (combineSources_ne_nil env.arb dv (ministryOf env params) combined hcc)
    hnil

/-- Helper: the persisted record set of a successful run is a fixed point of
the geocoding pass. -/
theorem runMain_investments_geocoded (env : RunEnv) (params : Params)
    (prior : Option Snapshot) (now : String) (out : RunOutcome)
    (h : runMain env params prior now = some out) :
    applyGeocoding env out.snapshot.investments = out.snapshot.investments := by
  obtain ⟨dv, combined, _, _, hinv, _⟩ := runMain_some_elim env params prior
    now out h
  rw [hinv, applyGeocoding_idem]

/-- Helper: geocoding does not change the projected registry codes. -/
theorem map_invADA_applyGeocoding (env : RunEnv) (l : List Investment) :
    (applyGeocoding env l).map invADA = l.map invADA := by
  rw [applyGeocoding]
  split
  · rw [List.map_map]
    exact List.map_congr_left
      (fun i _ => invADA_enrichInvestment env.geocode i)
  · rfl

/-- Helper: geocoding does not change the projected ministry URLs. -/
theorem map_invUrl_applyGeocoding (env : RunEnv) (l : List Investment) :
    (applyGeocoding env l).map invUrl = l.map invUrl := by
  rw [applyGeocoding]
  split
  · rw [List.map_map]
    exact List.map_congr_left
      (fun i _ => invUrl_enrichInvestment env.geocode i)
  · rfl

/-! Claim C2. -/

/-- C2 counterexample: run S1 discovers the revision edge `(X, Y)` while the
prior snapshot's record with code `X` stays in the persisted snapshot — the
superseded code resurfaces in `investments`. -/
theorem run_resurrects_superseded_record :
    runMain envS1 paramsS1 (some priorS1) "t1" = some outS1 ∧
    mapGet outS1.revisionsMap "X" = some "Y" ∧
    invX ∈ outS1.snapshot.investments ∧
    invADA invX = some "X" :=
  ⟨by decide, rfl, by decide, rfl⟩

/-- C2 amended: provided extraction reports each decision's own code and
ministry records carry no truthy registry code, any persisted record whose
code the run's revisions map lists as superseded has the same code as some
record of the prior snapshot — the new batch never contributes superseded
codes, while prior records are retained regardless. -/
theorem no_resurrection_amended (env : RunEnv) (params : Params)
    (prior : Option Snapshot) (now : String) (out : RunOutcome)
    (hx : ∀ (d : Decision) (i : Investment),
      env.extract d = some i → invADA i = some d.ada)
    (hm : ∀ i ∈ env.ministry, strTruthy (invADA i) = false)
    (h : runMain env params prior now = some out)
    (i : Investment) (hi : i ∈ out.snapshot.investments)
    (a : String) (ha : invADA i = some a)
    (hsup : mapHas out.revisionsMap a = true) :
    ∃ p : Snapshot, prior = some p ∧
      ∃ j, j ∈ p.investments ∧ invADA j = some a := by
  obtain ⟨dv, combined, hcd, hcc, hinv, _⟩ :=
    runMain_some_elim env params prior now out h
  rw [hinv] at hi
  obtain ⟨j, hj, hja, _⟩ := mem_applyGeocoding env _ i hi
  have hja2 : invADA j = some a := by rw [← hja]; exact ha
  rw [mergeWithPrior_eq] at hj
  rcases List.mem_append.1 hj with hjp | hjc
  · obtain ⟨p, hp, hpj⟩ := mem_priorKept params prior j hjp
    exact ⟨p, hp, j, hpj, hja2⟩
  · have hjc2 := (List.mem_filter.1 hjc).1
    have hfacts := collectDiavgeia_no_superseded env params _ dv
      out.revisionsMap hx hcd
    rcases combineSources_mem env.arb dv (ministryOf env params) combined hcc
        j hjc2 with hdv | hfalse | hmn
    · have hzero := hfacts.1 j hdv a hja2
      rw [hzero] at hsup
      simp at hsup
    · have haemp : a = "" := by
        rw [hja2] at hfalse
        exact strTruthy_some_false hfalse
      subst haemp
      rw [hfacts.2] at hsup
      simp at hsup
    · rw [ministryOf] at hmn
      by_cases hskip : params.skipMinistry = true
      · rw [if_pos hskip] at hmn
        simp at hmn
      · rw [if_neg hskip] at hmn
        have hfalse := hm j hmn
        have haemp : a = "" := by
          rw [hja2] at hfalse
          exact strTruthy_some_false hfalse
        subst haemp
        rw [hfacts.2] at hsup
        simp at hsup

/-- C2 witness: the amended statement evaluated on scenario S1; the
superseded code `X` in the persisted snapshot indeed comes from the prior
snapshot. -/
theorem no_resurrection_amended_witness :
    ∃ p : Snapshot, (some priorS1 : Option Snapshot) = some p ∧
      ∃ j, j ∈ p.investments ∧ invADA j = some "X" :=
  no_resurrection_amended envS1 paramsS1 (some priorS1) "t1" outS1
    (fun d i hdi => by
      injection hdi with h2
      rw [← h2]
      rfl)
    (fun i hi => absurd hi (List.not_mem_nil i))
    (by decide) invX (by decide) "X" rfl (by decide)

/-! Claim C4. -/

/-- C4 counterexample: with an extraction oracle that reports the same code
`Z` for two different decisions, the run persists two distinct records
sharing the same non-empty registry code — the duplicate check only warns
and removes nothing. -/
theorem run_persists_duplicate_identities :
    runMain envS2 paramsS2 none "t1" = some outS2 ∧
    dupA ∈ outS2.snapshot.investments ∧
    dupB ∈ outS2.snapshot.investments ∧
    dupA ≠ dupB ∧
    invADA dupA = some "Z" ∧ invADA dupB = some "Z" ∧ ("Z" : String) ≠ "" :=
  ⟨by decide, by decide, by decide, by decide, rfl, rfl, by decide⟩

/-- C4 amended: what every run does guarantee is cross-batch disjointness:
the persisted set is the (geocoded) prior records followed by a new part
none of whose truthy registry codes or ministry URLs collides with a prior
record's; duplicates inside the prior snapshot or inside the new batch are
only warned about. -/
theorem run_merge_identity_disjoint (env : RunEnv) (params : Params)
    (prior : Option Snapshot) (now : String) (out : RunOutcome)
    (h : runMain env params prior now = some out) :
    ∃ pre post : List Investment,
      out.snapshot.investments = pre ++ post ∧
      pre.map invADA = (priorKept params prior).map invADA ∧
      pre.map invUrl = (priorKept params prior).map invUrl ∧
      ∀ i ∈ post,
        (strTruthy (invADA i) = true →
          (adaKeysOf (priorKept params prior)).contains ((invADA i).getD "")
            = false) ∧
        (strTruthy (invUrl i) = true →
          (urlKeysOf (priorKept params prior)).contains ((invUrl i).getD "")
            = false) := by
  obtain ⟨dv, combined, _, _, hinv, _⟩ :=
    runMain_some_elim env params prior now out h
  refine ⟨applyGeocoding env (priorKept params prior),
    applyGeocoding env
      (combined.filter (mergeKeep (priorKept params prior))),
    ?_, map_invADA_applyGeocoding env _, map_invUrl_applyGeocoding env _, ?_⟩
  · rw [hinv, mergeWithPrior_eq, applyGeocoding_append]
  · intro i hi
    obtain ⟨j, hj, hja, hju⟩ := mem_applyGeocoding env _ i hi
    have hkeep := (List.mem_filter.1 hj).2
    rw [mergeKeep, Bool.and_eq_true] at hkeep
    obtain ⟨h1, h2⟩ := hkeep
    have h1d : strTruthy (invADA j) = false ∨
        (invADA j).getD "" ∉ adaKeysOf (priorKept params prior) := by
      simpa using h1
    have h2d : strTruthy (invUrl j) = false ∨
        (invUrl j).getD "" ∉ urlKeysOf (priorKept params prior) := by
      simpa using h2
    constructor
    · intro htr
      rw [hja] at htr
      rw [hja]
      rcases h1d with hx | hx
      · rw [htr] at hx
        simp at hx
      · simpa using hx
    · intro htr
      rw [hju] at htr
      rw [hju]
      rcases h2d with hx | hx
      · rw [htr] at hx
        simp at hx
      · simpa using hx

/-- C4 witness: the amended statement evaluated on scenario S2 (no prior
snapshot, so the prior part is empty and the whole batch is new). -/
theorem run_merge_identity_disjoint_witness :
    ∃ pre post : List Investment,
      outS2.snapshot.investments = pre ++ post ∧
      pre.map invADA = (priorKept paramsS2 none).map invADA ∧
      pre.map invUrl = (priorKept paramsS2 none).map invUrl ∧
      ∀ i ∈ post,
        (strTruthy (invADA i) = true →
          (adaKeysOf (priorKept paramsS2 none)).contains ((invADA i).getD "")
            = false) ∧
        (strTruthy (invUrl i) = true →
          (urlKeysOf (priorKept paramsS2 none)).contains ((invUrl i).getD "")
            = false) :=
  run_merge_identity_disjoint envS2 paramsS2 none "t1" outS2 (by decide)

/-! Claim C5. -/

/-- C5 counterexample: in a Diavgeia-only configuration a second run with
identical responses and no new candidates produces no snapshot at all (the
pipeline treats the all-known batch as "no investments collected" and
exits), instead of reproducing the first run's snapshot. -/
theorem rerun_aborts_without_new_candidates :
    runMain envS3 paramsS3 none "t1" = some outS3 ∧
    runMain envS3 paramsS3 (some outS3.snapshot) "t2" = none :=
  ⟨by decide, by decide⟩

/-- C5 amended: when the ministry source is active and non-empty, a re-run
against the first run's snapshot with identical collaborator responses and
no new candidates (every decision's code and every ministry record's
identity already present) persists a snapshot with identical
`investments`. -/
theorem idempotent_rerun (env : RunEnv) (params : Params)
    (prior : Option Snapshot) (now1 now2 : String) (out1 : RunOutcome)
    (h1 : runMain env params prior now1 = some out1)
    (hig : params.ignoreExisting = false)
    (hsm : params.skipMinistry = false)
    (hmn : env.ministry ≠ [])
    (hd : ∀ d ∈ env.decisions,
      (adaKeysOf out1.snapshot.investments).contains d.ada = true)
    (hmu : ∀ m ∈ env.ministry,
      (strTruthy (invADA m) = true ∧
        (adaKeysOf out1.snapshot.investments).contains ((invADA m).getD "")
          = true) ∨
      (strTruthy (invUrl m) = true ∧
        (urlKeysOf out1.snapshot.investments).contains ((invUrl m).getD "")
          = true)) :
    ∃ out2 : RunOutcome,
      runMain env params (some out1.snapshot) now2 = some out2 ∧
      out2.snapshot.investments = out1.snapshot.investments := by
  have hne := runMain_investments_ne_nil env params prior now1 out1 h1
  have hgeo := runMain_investments_geocoded env params prior now1 out1 h1
  have hcd : collectDiavgeia env params
      (existingSetOf params (some out1.snapshot)) = some ([], []) := by
    by_cases hskip : params.skipDiavgeia = true
    · simp [collectDiavgeia, hskip]
    · by_cases hde : env.decisions.isEmpty = true
      · simp [collectDiavgeia, hskip, hde, hsm]
      · have hdecne : env.decisions ≠ [] := by
          simpa [List.isEmpty_iff] using hde
        obtain ⟨d0, hd0⟩ := List.exists_mem_of_ne_nil env.decisions hdecne
        have hsne : (adaKeysOf out1.snapshot.investments).isEmpty = false := by
          have hcont := hd d0 hd0
          cases hset2 : adaKeysOf out1.snapshot.investments with
          | nil => rw [hset2] at hcont; simp at hcont
          | cons a l => rfl
        have hfilter : env.decisions.filter
            (fun d =>
              !(adaKeysOf out1.snapshot.investments).contains d.ada) = [] := by
          rw [List.filter_eq_nil_iff]
          intro d hdm
          simpa using hd d hdm
        simp [collectDiavgeia, existingSetOf, hskip, hde, hig, hsne, hfilter]
        intro x hx hnot
        exact absurd (by simpa using hd x hx) hnot
  have hmemp : env.ministry.isEmpty = false := by
    simpa [List.isEmpty_iff] using hmn
  have hcc : combineSources env.arb [] (ministryOf env params)
      = some env.ministry := by
    rw [ministryOf, hsm]
    simp [combineSources, hmemp]
  have hpk : priorKept params (some out1.snapshot)
      = out1.snapshot.investments := by
    have hinvemp : out1.snapshot.investments.isEmpty = false := by
      simpa [List.isEmpty_iff] using hne
    simp [priorKept, hig, hinvemp]
  have hfil : env.ministry.filter (mergeKeep out1.snapshot.investments)
      = [] := by
    rw [List.filter_eq_nil_iff]
    intro m hm2
    rcases hmu m hm2 with ⟨ht, hc⟩ | ⟨ht, hc⟩
    · have hc2 : (invADA m).getD "" ∈ adaKeysOf out1.snapshot.investments := by
        simpa using hc
      simp [mergeKeep, ht, hc2]
    · have hc2 : (invUrl m).getD "" ∈ urlKeysOf out1.snapshot.investments := by
        simpa using hc
      simp [mergeKeep, ht, hc2]
  have hmrg : mergeWithPrior params (some out1.snapshot) env.ministry
      = out1.snapshot.investments := by
    rw [mergeWithPrior_eq, hpk, hfil, List.append_nil]
  refine ⟨⟨saveData now2 (applyGeocoding env (mergeWithPrior params
    (some out1.snapshot) env.ministry)) none, []⟩, ?_, ?_⟩
  · simp only [runMain, hcd]
    rw [hcc]
  · simp only [saveData]
    rw [hmrg, hgeo]

/-- C5 witness: the amended statement evaluated on the ministry-only
scenario S4: the second run persists the same single record. -/
theorem idempotent_rerun_witness :
    ∃ out2 : RunOutcome,
      runMain envS4 paramsS4 (some outS4.snapshot) "t2" = some out2 ∧
      out2.snapshot.investments = outS4.snapshot.investments :=
  idempotent_rerun envS4 paramsS4 none "t1" "t2" outS4 (by decide) rfl rfl
    (by decide)
    (fun d hd2 => absurd hd2 (List.not_mem_nil d))
    (fun m hm2 => by
      have hme : m = mInv := by simpa [envS4] using hm2
      subst hme
      exact Or.inr ⟨rfl, by decide⟩)

end SIGR
